import Mathlib

/-!
# Shift lifecycle and time accounting of the time-tracker backend

A shallow embedding of `src/models/Shift.js` and of the shift handlers of
`src/controllers/shiftController.js`, together with `src/middleware/errorHandler.js`.

Modelling conventions.

* A `Date` is its millisecond timestamp, an `Int`; the difference of two dates is the
  difference of the timestamps. A stored date is either present or absent (`Option`):
  a `Date` object is always truthy in JavaScript, so `!x.endTime` tests absence only.
* The collection of shift documents is a list; a document's position is its identity,
  `Shift.findOne` returns the first document matching the query, `save` writes the
  document back at its position and `Shift.create` appends.
* Every evaluation of `new Date()` is a reading of the clock. A handler call receives
  the readings it will obtain as a function `clock : Nat → Time` (`clock k` is the
  reading number `k` of that call), so two readings of one call may differ.
* Schema validation on `save`/`create` is the `required` and sub-schema constraints
  written in `Shift.js`; a failure is thrown, caught by the handler and passed to
  `handleError`. The text of a validation message is produced by the ODM and is kept
  abstract (the offending path only).
* The mongoose bookkeeping fields (`_id`, `createdAt`, `updatedAt`) are not modelled.
* The notification e-mail of `startShift`/`endShift` is detached from the handler and
  does not touch the shift collection; it is not modelled.
-/

namespace TimeTracker

/-- Millisecond timestamp of a `Date`. -/
abbrev Time := Int

/-- The `_id` of a user document. -/
abbrev EmployeeId := Nat

/-- Successive readings of `new Date()` within one handler call. -/
abbrev Clock := Nat → Time

/-- A stored location (`locationSchema`): both coordinates are required. -/
structure Location where
  latitude : Int
  longitude : Int
  accuracy : Option Int
deriving DecidableEq, Repr

/-- A location object as found in a request body: any field may be missing. -/
structure ReqLocation where
  latitude : Option Int
  longitude : Option Int
  accuracy : Option Int
deriving DecidableEq, Repr

/-- A stored break (`breakSchema`). -/
structure Break where
  type : String
  startTime : Time
  endTime : Option Time
  location : Location
deriving DecidableEq, Repr

/-- A stored shift (`shiftSchema`). -/
structure Shift where
  employeeId : EmployeeId
  startTime : Time
  endTime : Option Time
  location : Location
  endLocation : Option Location
  breaks : List Break
  onBreak : Bool
  breakType : Option String
  totalWorkingTime : Option Int
  totalBreakTime : Option Int
deriving DecidableEq, Repr

/-- The shift collection. -/
abbrev Store := List Shift

/-- What a handler can throw: a schema validation error, a write refused with the duplicate
key code 11000, a `TypeError`, or any other rejection of an awaited database operation. -/
inductive Thrown where
  | validationError (path : String)
  | duplicateKey
  | typeError
  | rejected
deriving DecidableEq, Repr

/-- Body of a JSON response. -/
inductive Body where
  | shift (s : Shift)
  | message (m : String)
  | validation (path : String)
deriving DecidableEq, Repr

/-- An HTTP response: status code and body. -/
structure Response where
  status : Nat
  body : Body
deriving DecidableEq, Repr

/-- The function `handleError` of `errorHandler.js`: a validation error is answered with 400
and the validation messages (lines 7-10), the duplicate key code 11000 with 400
`Duplicate field value entered` (lines 13-15), anything else with 500 `Server error`
(line 20). `Shift.js` declares no unique index, so no handler below throws `duplicateKey`. -/
def handleError : Thrown → Response
  | .validationError path => ⟨400, .validation path⟩
  | .duplicateKey => ⟨400, .message "Duplicate field value entered"⟩
  | .typeError => ⟨500, .message "Server error"⟩
  | .rejected => ⟨500, .message "Server error"⟩

/-- Validation of a location object against `locationSchema`:
`latitude` and `longitude` are required. -/
def castLocation (r : ReqLocation) : Option Location :=
  match r.latitude, r.longitude with
  | some la, some lo => some ⟨la, lo, r.accuracy⟩
  | _, _ => none

/-- A path declared `type: locationSchema, required: true`. -/
def requiredLocation (path : String) : Option ReqLocation → Except Thrown Location
  | none => .error (.validationError path)
  | some r =>
    match castLocation r with
    | none => .error (.validationError path)
    | some loc => .ok loc

/-- A path declared `type: locationSchema` without `required`. -/
def optionalLocation (path : String) : Option ReqLocation → Except Thrown (Option Location)
  | none => .ok none
  | some r =>
    match castLocation r with
    | none => .error (.validationError path)
    | some loc => .ok (some loc)

/-- First document satisfying the query, with its position. -/
def findOne (p : Shift → Bool) : Store → Option (Nat × Shift)
  | [] => none
  | s :: rest =>
    if p s then some (0, s)
    else
      match findOne p rest with
      | none => none
      | some (i, r) => some (i + 1, r)

/-- The query `{ employeeId, endTime: null }`. -/
def activeOf (emp : EmployeeId) (s : Shift) : Bool :=
  s.employeeId == emp && s.endTime.isNone

/-- The query `{ employeeId, endTime: null, onBreak: true }`. -/
def activeOnBreakOf (emp : EmployeeId) (s : Shift) : Bool :=
  s.employeeId == emp && s.endTime.isNone && s.onBreak

/-- The reducer of `calculateWorkingTime` (Shift.js, lines 90-93): an open break is skipped. -/
def closedBreakStep (total : Int) (breakItem : Break) : Int :=
  match breakItem.endTime with
  | none => total
  | some e => total + (e - breakItem.startTime)

/-- The method `shiftSchema.methods.calculateWorkingTime` (Shift.js, lines 81-98). -/
def calculateWorkingTime (self : Shift) : Option Int :=
  match self.endTime with
  | none => none
  | some endTime =>
    let totalTime := endTime - self.startTime
    let breakTime :=
      if self.breaks.length > 0 then self.breaks.foldl closedBreakStep 0 else 0
    some (totalTime - breakTime)

/-- The reducer of lines 107-110 and 284-288 of the controller: an open break is valued
against a fresh clock reading. The state is the running total and the index of the next
clock reading. -/
def breakStepNow (clock : Clock) (acc : Int × Nat) (breakItem : Break) : Int × Nat :=
  match breakItem.endTime with
  | some e => (acc.1 + (e - breakItem.startTime), acc.2)
  | none => (acc.1 + (clock acc.2 - breakItem.startTime), acc.2 + 1)

/-- The expression `breaks.reduce(..., 0)` of lines 107-110 and 284-288, started at clock
reading `k`; returns the sum and the index of the next reading. -/
def sumBreaksNow (clock : Clock) (breaks : List Break) (k : Nat) : Int × Nat :=
  breaks.foldl (breakStepNow clock) (0, k)

/-- Lines 74-77 of `endShift` and 197-204 of `endBreak`: the last break gets an end time,
the break flags are cleared. Reading the last element of an empty array gives `undefined`,
and assigning a property of it throws. -/
def closeCurrentBreak (shift : Shift) (t : Time) : Except Thrown Shift :=
  match shift.breaks[shift.breaks.length - 1]? with
  | none => .error .typeError
  | some currentBreak =>
    .ok { shift with
          breaks := shift.breaks.set (shift.breaks.length - 1)
                      { currentBreak with endTime := some t }
          onBreak := false
          breakType := none }

/-- The document created by `startShift` (lines 35-40, with the schema defaults). -/
def freshShift (emp : EmployeeId) (t : Time) (loc : Location) : Shift :=
  { employeeId := emp, startTime := t, endTime := none, location := loc,
    endLocation := none, breaks := [], onBreak := false, breakType := none,
    totalWorkingTime := none, totalBreakTime := none }

/-- The handler `startShift` (lines 22-57). -/
def startShift (store : Store) (emp : EmployeeId) (location : Option ReqLocation)
    (clock : Clock) : Response × Store :=
  match findOne (activeOf emp) store with
  | some _ => (⟨400, .message "You already have an active shift"⟩, store)
  | none =>
    match requiredLocation "location" location with
    | .error e => (handleError e, store)
    | .ok loc =>
      let shift := freshShift emp (clock 0) loc
      (⟨201, .shift shift⟩, store ++ [shift])

/-- Lines 72-113 of `endShift`: the in-memory update of the document that was found
(the assignment of `endLocation`, line 85, is applied by `endShift` below, where the request
location is checked against the schema). The document always carries the schema method, so
line 89 is the branch taken. -/
def endShiftUpdate (shift : Shift) (clock : Clock) : Except Thrown Shift :=
  let closed : Except Thrown (Shift × Nat) :=
    if shift.onBreak then
      match closeCurrentBreak shift (clock 0) with
      | .error e => .error e
      | .ok s => .ok (s, 1)
    else .ok (shift, 0)
  match closed with
  | .error e => .error e
  | .ok (s1, k) =>
    let s2 : Shift := { s1 with endTime := some (clock k) }
    let s3 : Shift := { s2 with totalWorkingTime := calculateWorkingTime s2 }
    let totalBreakTime : Int :=
      if s3.breaks.length > 0 then (sumBreaksNow clock s3.breaks (k + 1)).1 else 0
    .ok { s3 with totalBreakTime := some totalBreakTime }

/-- The handler `endShift` (lines 60-133). The request location becomes `endLocation`
(line 85); `save` (line 115) checks it against `locationSchema` and writes the document. -/
def endShift (store : Store) (emp : EmployeeId) (location : Option ReqLocation)
    (clock : Clock) : Response × Store :=
  match findOne (activeOf emp) store with
  | none => (⟨404, .message "No active shift found"⟩, store)
  | some (i, shift) =>
    match endShiftUpdate shift clock with
    | .error e => (handleError e, store)
    | .ok s =>
      match optionalLocation "endLocation" location with
      | .error e => (handleError e, store)
      | .ok endLocation =>
        let saved : Shift := { s with endLocation := endLocation }
        (⟨200, .shift saved⟩, store.set i saved)

/-- The handler `startBreak` (lines 136-178). -/
def startBreak (store : Store) (emp : EmployeeId) (type : String)
    (location : Option ReqLocation) (clock : Clock) : Response × Store :=
  if !(type == "LUNCH" || type == "SHORT") then
    (⟨400, .message "Invalid break type"⟩, store)
  else
    match findOne (activeOf emp) store with
    | none => (⟨404, .message "No active shift found"⟩, store)
    | some (i, shift) =>
      if shift.onBreak then (⟨400, .message "You are already on break"⟩, store)
      else
        match requiredLocation "breaks.location" location with
        | .error e => (handleError e, store)
        | .ok loc =>
          let newBreak : Break :=
            { type := type, startTime := clock 0, endTime := none, location := loc }
          let s : Shift :=
            { shift with breaks := shift.breaks ++ [newBreak], onBreak := true,
                         breakType := some type }
          (⟨200, .shift s⟩, store.set i s)

/-- The handler `endBreak` (lines 181-212). The `location` taken from the body at line 183
is not used afterwards, so the request carries none here. -/
def endBreak (store : Store) (emp : EmployeeId) (clock : Clock) : Response × Store :=
  match findOne (activeOnBreakOf emp) store with
  | none => (⟨404, .message "No active break found"⟩, store)
  | some (i, shift) =>
    match closeCurrentBreak shift (clock 0) with
    | .error e => (handleError e, store)
    | .ok s => (⟨200, .shift s⟩, store.set i s)

/-- A request to one of the four lifecycle routes, with the clock readings of the call. -/
inductive Call where
  | startShift (emp : EmployeeId) (location : Option ReqLocation) (clock : Clock)
  | endShift (emp : EmployeeId) (location : Option ReqLocation) (clock : Clock)
  | startBreak (emp : EmployeeId) (type : String) (location : Option ReqLocation)
      (clock : Clock)
  | endBreak (emp : EmployeeId) (clock : Clock)

/-- Serve one request. -/
def step (store : Store) : Call → Response × Store
  | .startShift emp location clock => startShift store emp location clock
  | .endShift emp location clock => endShift store emp location clock
  | .startBreak emp type location clock => startBreak store emp type location clock
  | .endBreak emp clock => endBreak store emp clock

/-- Serve a sequence of requests one at a time; the resulting collection. -/
def run (store : Store) (calls : List Call) : Store :=
  calls.foldl (fun st c => (step st c).2) store

/-! ## Statistics (`getShiftStatistics`, lines 242-312) -/

/-- The six functions imported from `date-fns` (line 3); the week functions take the
option `weekStartsOn` (0 is Sunday, 1 is Monday) as their second argument. They belong to a
dependency and are taken as a parameter. -/
structure DateFns where
  startOfDay : Time → Time
  endOfDay : Time → Time
  startOfWeek : Time → Nat → Time
  endOfWeek : Time → Nat → Time
  startOfMonth : Time → Time
  endOfMonth : Time → Time

/-- The query `{ employeeId: userId, startTime: { $gte: lo, $lte: hi } }`. -/
def startsWithin (userId : EmployeeId) (lo hi : Time) (s : Shift) : Bool :=
  s.employeeId == userId && (decide (lo ≤ s.startTime) && decide (s.startTime ≤ hi))

/-- All documents satisfying the query (`Shift.find`). -/
def find (p : Shift → Bool) (store : Store) : List Shift :=
  store.filter p

/-- The body of the `forEach` of lines 275-294. The state is `totalMs` and the index of the
next clock reading; an open shift is valued against a fresh reading. -/
def shiftStep (clock : Clock) (acc : Int × Nat) (shift : Shift) : Int × Nat :=
  let startTime := shift.startTime
  let ended : Time × Nat :=
    match shift.endTime with
    | some e => (e, acc.2)
    | none => (clock acc.2, acc.2 + 1)
  let shiftDuration := ended.1 - startTime
  if shift.breaks.length > 0 then
    let breakMs := sumBreaksNow clock shift.breaks ended.2
    (acc.1 + (shiftDuration - breakMs.1), breakMs.2)
  else (acc.1 + shiftDuration, ended.2)

/-- The value of `totalMs` after the `forEach` (lines 273-294), started at clock reading `k`,
with the index of the next reading. -/
def calculateTotalMs (clock : Clock) (shifts : List Shift) (k : Nat) : Int × Nat :=
  shifts.foldl (shiftStep clock) (0, k)

/-- The local function `calculateTotalHours` (lines 272-298). The quotient is the exact
rational; the JavaScript number is the double nearest to it. -/
def calculateTotalHours (clock : Clock) (shifts : List Shift) (k : Nat) : ℚ × Nat :=
  let r := calculateTotalMs clock shifts k
  ((r.1 : ℚ) / (1000 * 60 * 60), r.2)

/-- The body of the response of `getShiftStatistics`. -/
structure Stats where
  today : ℚ
  weekly : ℚ
  monthly : ℚ

/-- The handler `getShiftStatistics` (lines 242-312). Reading 0 of the clock is `today`. -/
def getShiftStatistics (df : DateFns) (store : Store) (userId : EmployeeId)
    (clock : Clock) : Stats :=
  let today := clock 0
  let dayStart := df.startOfDay today
  let dayEnd := df.endOfDay today
  let weekStart := df.startOfWeek today 1
  let weekEnd := df.endOfWeek today 1
  let monthStart := df.startOfMonth today
  let monthEnd := df.endOfMonth today
  let dailyShifts := find (startsWithin userId dayStart dayEnd) store
  let weeklyShifts := find (startsWithin userId weekStart weekEnd) store
  let monthlyShifts := find (startsWithin userId monthStart monthEnd) store
  let dailyHours := calculateTotalHours clock dailyShifts 1
  let weeklyHours := calculateTotalHours clock weeklyShifts dailyHours.2
  let monthlyHours := calculateTotalHours clock monthlyShifts weeklyHours.2
  { today := dailyHours.1, weekly := weeklyHours.1, monthly := monthlyHours.1 }

/-! ## The inline fallback of `endShift` (lines 91-102) -/

/-- The reducer of lines 96-99: an open break is skipped. -/
def fallbackBreakStep (total : Int) (breakItem : Break) : Int :=
  match breakItem.endTime with
  | none => total
  | some e => total + (e - breakItem.startTime)

/-- The `else` branch of lines 90-103, the value assigned to `totalWorkingTime` when the
document has no `calculateWorkingTime` method. Line 84 has set `endTime` before; without an
end time the subtraction of line 92 is not a number, which is `none` here. -/
def fallbackWorkingTime (shift : Shift) : Option Int :=
  match shift.endTime with
  | none => none
  | some endTime =>
    let totalTime := endTime - shift.startTime
    let breakTime :=
      if shift.breaks.length > 0 then shift.breaks.foldl fallbackBreakStep 0 else 0
    some (totalTime - breakTime)

/-- Lines 88-103: the method when the document has it, the inline calculation otherwise. -/
def workingTimeOf (hasMethod : Bool) (shift : Shift) : Option Int :=
  if hasMethod then calculateWorkingTime shift else fallbackWorkingTime shift

/-! ## Rejected database operations

The handlers above are the behaviour when every awaited database operation resolves. Each
awaited operation may instead reject; the rejection is caught by the handler's `catch` and
passed to `handleError`. -/

/-- Which awaited operations of a call reject: the `Shift.findOne` query, the write of
`save`/`Shift.create` (after schema validation has passed), the `User.findById` lookup made
for the notification. -/
structure Faults where
  find : Bool
  save : Bool
  userLookup : Bool
deriving DecidableEq, Repr

/-- No operation rejects. -/
def noFaults : Faults :=
  { find := false, save := false, userLookup := false }

/-- The handler `startShift` with rejections. Awaits, in order: `Shift.findOne` (line 25),
`Shift.create` (line 35), `User.findById` (line 43); the response is sent after the last
one (line 53). -/
def startShiftF (f : Faults) (store : Store) (emp : EmployeeId)
    (location : Option ReqLocation) (clock : Clock) : Response × Store :=
  if f.find then (handleError .rejected, store)
  else
    let r := startShift store emp location clock
    if r.1.status = 201 then
      if f.save then (handleError .rejected, store)
      else if f.userLookup then (handleError .rejected, r.2)
      else r
    else r

/-- The handler `endShift` with rejections. Awaits, in order: `Shift.findOne` (line 63),
`shift.save` (line 115), `User.findById` (line 118); the response is sent after the last
one (line 128). -/
def endShiftF (f : Faults) (store : Store) (emp : EmployeeId)
    (location : Option ReqLocation) (clock : Clock) : Response × Store :=
  if f.find then (handleError .rejected, store)
  else
    let r := endShift store emp location clock
    if r.1.status = 200 then
      if f.save then (handleError .rejected, store)
      else if f.userLookup then (handleError .rejected, r.2)
      else r
    else r

/-- The handler `startBreak` with rejections. The type is checked before anything is
awaited (line 141); awaits: `Shift.findOne` (line 146), `shift.save` (line 172). -/
def startBreakF (f : Faults) (store : Store) (emp : EmployeeId) (type : String)
    (location : Option ReqLocation) (clock : Clock) : Response × Store :=
  if !(type == "LUNCH" || type == "SHORT") then startBreak store emp type location clock
  else if f.find then (handleError .rejected, store)
  else
    let r := startBreak store emp type location clock
    if r.1.status = 200 then
      if f.save then (handleError .rejected, store) else r
    else r

/-- The handler `endBreak` with rejections. Awaits: `Shift.findOne` (line 186),
`shift.save` (line 206). -/
def endBreakF (f : Faults) (store : Store) (emp : EmployeeId) (clock : Clock) :
    Response × Store :=
  if f.find then (handleError .rejected, store)
  else
    let r := endBreak store emp clock
    if r.1.status = 200 then
      if f.save then (handleError .rejected, store) else r
    else r

/-- Serve one request, some awaited operations rejecting. -/
def stepF (f : Faults) (store : Store) : Call → Response × Store
  | .startShift emp location clock => startShiftF f store emp location clock
  | .endShift emp location clock => endShiftF f store emp location clock
  | .startBreak emp type location clock => startBreakF f store emp type location clock
  | .endBreak emp clock => endBreakF f store emp clock

/-- Serve a sequence of requests one at a time, each with its own rejections. -/
def runF (store : Store) (calls : List (Faults × Call)) : Store :=
  calls.foldl (fun st c => (stepF c.1 st c.2).2) store

/-! ## Properties of documents and of the collection -/

/-- Every break of the list has an end time. -/
def AllClosed (breaks : List Break) : Prop :=
  ∀ b ∈ breaks, b.endTime ≠ none

/-- Shape of the break list: on break, the last break is the only open one; otherwise
every break is closed. -/
def BreakShape (s : Shift) : Prop :=
  (s.onBreak = true →
    ∃ init last, s.breaks = init ++ [last] ∧ AllClosed init ∧ last.endTime = none) ∧
  (s.onBreak = false → AllClosed s.breaks)

/-- A closed shift is off break and its two totals add up to its length. -/
def Accounted (s : Shift) : Prop :=
  ∀ e, s.endTime = some e →
    s.onBreak = false ∧
    ∃ w b, s.totalWorkingTime = some w ∧ s.totalBreakTime = some b ∧
      w + b = e - s.startTime

/-- Number of shifts of `emp` without an end time. -/
def activeCount (store : Store) (emp : EmployeeId) : Nat :=
  (store.filter (activeOf emp)).length

/-- Each employee has at most one shift without an end time. -/
def AtMostOneActive (store : Store) : Prop :=
  ∀ emp, activeCount store emp ≤ 1

/-- The document `endShiftUpdate` builds from a document `s1` whose break flag is already
cleared, with the end time read at clock index `k`. -/
def finishAt (s1 : Shift) (clock : Clock) (k : Nat) : Shift :=
  { s1 with
    endTime := some (clock k)
    totalWorkingTime := calculateWorkingTime { s1 with endTime := some (clock k) }
    totalBreakTime :=
      some (if s1.breaks.length > 0 then (sumBreaksNow clock s1.breaks (k + 1)).1 else 0) }

/-- The ways a handler rewrites the document it found: a break is appended, the current
break is closed, or the shift is ended. -/
inductive Trans : Shift → Shift → Prop where
  | breakStarted (s : Shift) (type : String) (t : Time) (loc : Location) :
      s.endTime = none → s.onBreak = false →
      Trans s { s with breaks := s.breaks ++ [⟨type, t, none, loc⟩], onBreak := true,
                       breakType := some type }
  | breakEnded (s s' : Shift) (t : Time) :
      s.endTime = none → s.onBreak = true → closeCurrentBreak s t = .ok s' → Trans s s'
  | shiftEnded (s s' : Shift) (clock : Clock) (endLocation : Option Location) :
      s.endTime = none → endShiftUpdate s clock = .ok s' →
      Trans s { s' with endLocation := endLocation }

/-! ## The accounting in the words of the specification -/

/-- Duration of a break, an open break being valued against `now`. -/
def specBreakMs (now : Time) (b : Break) : Int :=
  b.endTime.getD now - b.startTime

/-- Working time of a shift: `(endTime or now) - startTime` minus the sum over the breaks
of `(break endTime or now) - break startTime`. -/
def specWorkingMs (now : Time) (s : Shift) : Int :=
  s.endTime.getD now - s.startTime - (s.breaks.map (specBreakMs now)).sum

/-- Hours of a window: the sum of the working times of exactly the shifts of the employee
whose start time lies in `[lo, hi]`, divided by 3,600,000. -/
def specHours (now : Time) (emp : EmployeeId) (lo hi : Time) (store : Store) : ℚ :=
  (((store.filter (fun s => decide (s.employeeId = emp ∧ lo ≤ s.startTime ∧
        s.startTime ≤ hi))).map (specWorkingMs now)).sum : ℚ) / 3600000

/-- Durations of the breaks that have an end time. -/
def closedBreakDurations (breaks : List Break) : List Int :=
  breaks.filterMap (fun b => b.endTime.map (fun e => e - b.startTime))

/-! ## Timestamps of a document in the order they were written -/

/-- The start times and end times of the breaks, in list order. -/
def breaksTimeline : List Break → List Time
  | [] => []
  | b :: rest => b.startTime :: (b.endTime.toList ++ breaksTimeline rest)

/-- Every timestamp of a shift: its start, then the breaks in order, then its end. -/
def timeline (s : Shift) : List Time :=
  s.startTime :: (breaksTimeline s.breaks ++ s.endTime.toList)

/-- The clock readings of a request. -/
def clockOf : Call → Clock
  | .startShift _ _ clock => clock
  | .endShift _ _ clock => clock
  | .startBreak _ _ _ clock => clock
  | .endBreak _ clock => clock

/-- The clock never goes back: the first reading of each request is not earlier than `lo`
and than the first reading of the request before it, and its second reading is not earlier
than its first. (In a collection reached from the empty one a handler takes at most two
readings.) -/
def NonDecreasingFrom (lo : Time) : List Call → Prop
  | [] => True
  | c :: rest =>
    lo ≤ clockOf c 0 ∧ clockOf c 0 ≤ clockOf c 1 ∧ NonDecreasingFrom (clockOf c 0) rest

/-- The timestamps of a shift are in non-decreasing order and, while the shift is open, none
is later than `hw`. -/
def TimeInv (hw : Time) (s : Shift) : Prop :=
  (timeline s).Pairwise (fun a b => a ≤ b) ∧ (s.endTime = none → ∀ t ∈ timeline s, t ≤ hw)

/-- A closed shift has only closed breaks and stores the totals computed from them. -/
def Stored (s : Shift) : Prop :=
  ∀ e, s.endTime = some e →
    AllClosed s.breaks ∧
    s.totalWorkingTime = some (e - s.startTime - (closedBreakDurations s.breaks).sum) ∧
    s.totalBreakTime = some (closedBreakDurations s.breaks).sum

/-! ## A concrete instance of the calendar functions (UTC) -/

/-- Milliseconds in a day. -/
def msPerDay : Int := 86400000

/-- Day number of an instant (days since 1970-01-01, UTC). -/
def dayNumber (t : Time) : Int := t / msPerDay

/-- Day of the month (1-based) of a day number, by the usual era / March-based-year
decomposition of the proleptic Gregorian calendar. -/
def dayOfMonth (d : Int) : Int :=
  let z := d + 719468
  let era := z / 146097
  let doe := z - era * 146097
  let yoe := (doe - doe / 1460 + doe / 36524 - doe / 146096) / 365
  let doy := doe - (365 * yoe + yoe / 4 - yoe / 100)
  let mp := (5 * doy + 2) / 153
  doy - (153 * mp + 2) / 5 + 1

/-- Day number of the first day of the month containing day `d`. -/
def monthStartDay (d : Int) : Int := d - (dayOfMonth d - 1)

/-- The `date-fns` functions used by the controller, for the UTC time zone. The day of the
week of day `d` is `(d + 4) % 7` with Sunday 0 (1970-01-01 was a Thursday), so a week that
starts on day `w` began `(d + 4 - w) % 7` days before day `d`. -/
def utcDateFns : DateFns where
  startOfDay t := dayNumber t * msPerDay
  endOfDay t := dayNumber t * msPerDay + (msPerDay - 1)
  startOfWeek t w := (dayNumber t - (dayNumber t + 4 - w) % 7) * msPerDay
  endOfWeek t w := (dayNumber t - (dayNumber t + 4 - w) % 7 + 7) * msPerDay - 1
  startOfMonth t := monthStartDay (dayNumber t) * msPerDay
  endOfMonth t := monthStartDay (monthStartDay (dayNumber t) + 32) * msPerDay - 1

/-! ## Sample data -/

/-- A request location with both coordinates. -/
def sampleLocation : ReqLocation :=
  { latitude := some 6, longitude := some 80, accuracy := none }

/-- A clock that advances by one millisecond at every reading, starting from `t`. -/
def tickingFrom (t : Time) : Clock :=
  fun k => t + k

/-- Employee 1 clocks in at 1000 and goes on a short break at 2000. -/
def sampleOnBreak : List Call :=
  [ .startShift 1 (some sampleLocation) (tickingFrom 1000),
    .startBreak 1 "SHORT" (some sampleLocation) (tickingFrom 2000) ]

/-- The document of employee 1 after `sampleOnBreak`. -/
def sampleOnBreakShift : Shift :=
  { employeeId := 1, startTime := 1000, endTime := none,
    location := ⟨6, 80, none⟩, endLocation := none,
    breaks := [⟨"SHORT", 2000, none, ⟨6, 80, none⟩⟩],
    onBreak := true, breakType := some "SHORT",
    totalWorkingTime := none, totalBreakTime := none }

/-- The document of employee 1 when the shift of `sampleOnBreak` is ended with the clock
`tickingFrom 5000`. -/
def sampleEndedOnBreak : Shift :=
  { employeeId := 1, startTime := 1000, endTime := some 5001,
    location := ⟨6, 80, none⟩, endLocation := none,
    breaks := [⟨"SHORT", 2000, some 5000, ⟨6, 80, none⟩⟩],
    onBreak := false, breakType := none,
    totalWorkingTime := some 1001, totalBreakTime := some 3000 }

/-- Employee 1 clocks in at 1000. -/
def sampleOnShift : List Call :=
  [ .startShift 1 (some sampleLocation) (tickingFrom 1000) ]

/-- The document of employee 1 after `sampleOnShift`. -/
def sampleOnShiftShift : Shift :=
  { employeeId := 1, startTime := 1000, endTime := none,
    location := ⟨6, 80, none⟩, endLocation := none, breaks := [],
    onBreak := false, breakType := none,
    totalWorkingTime := none, totalBreakTime := none }

/-- Employee 1 tries to clock in again, employee 2 clocks in, employee 1 clocks out and in
again. -/
def sampleFollowUp : List Call :=
  [ .startShift 1 (some sampleLocation) (tickingFrom 3000),
    .startShift 2 (some sampleLocation) (tickingFrom 3500),
    .endShift 1 none (tickingFrom 5000),
    .startShift 1 (some sampleLocation) (tickingFrom 6000) ]

/-- A clock that reads `t0` first and `t` at every later reading. -/
def readingThen (t0 t : Time) : Clock :=
  fun k => if k = 0 then t0 else t

/-- A clock that stands still at `t`. -/
def standingAt (t : Time) : Clock :=
  fun _ => t

/-- Employee 1 clocks in at 0, is on break from 0 to 20, and the clock, set back, reads 10
when the shift is ended. -/
def sampleClockSetBack : List Call :=
  [ .startShift 1 (some sampleLocation) (standingAt 0),
    .startBreak 1 "SHORT" (some sampleLocation) (standingAt 0),
    .endBreak 1 (standingAt 20) ]

/-- The document saved when the shift of `sampleClockSetBack` is ended at reading 10. -/
def sampleNegative : Shift :=
  { employeeId := 1, startTime := 0, endTime := some 10,
    location := ⟨6, 80, none⟩, endLocation := none,
    breaks := [⟨"SHORT", 0, some 20, ⟨6, 80, none⟩⟩],
    onBreak := false, breakType := none,
    totalWorkingTime := some (-10), totalBreakTime := some 20 }

/-- A closed record with one closed and one open break (not a state the handlers reach). -/
def sampleOpenBreakInClosedShift : Shift :=
  { employeeId := 1, startTime := 0, endTime := some 100,
    location := ⟨6, 80, none⟩, endLocation := none,
    breaks := [⟨"SHORT", 10, some 30, ⟨6, 80, none⟩⟩, ⟨"LUNCH", 50, none, ⟨6, 80, none⟩⟩],
    onBreak := false, breakType := none,
    totalWorkingTime := none, totalBreakTime := none }

/-- Requests after the shift of `sampleOnBreak` was ended with the clock `tickingFrom 5000`:
employee 1 asks for a break, ends a break, clocks out, and clocks in again, the last save
being rejected. -/
def sampleAfterEnd : List (Faults × Call) :=
  [ (noFaults, .startBreak 1 "LUNCH" (some sampleLocation) (tickingFrom 6000)),
    (noFaults, .endBreak 1 (tickingFrom 6100)),
    (noFaults, .endShift 1 none (tickingFrom 6200)),
    ({ find := false, save := true, userLookup := false },
      .startShift 1 (some sampleLocation) (tickingFrom 6300)),
    (noFaults, .startShift 1 (some sampleLocation) (tickingFrom 6400)) ]

/-- Employee 1 clocks in at 1000, takes a short break from 2000 to 2900 and a lunch break
from 3000, and clocks out while on that break, the clock reading 5000 and then 5001. -/
def sampleFullDay : List Call :=
  [ .startShift 1 (some sampleLocation) (tickingFrom 1000),
    .startBreak 1 "SHORT" (some sampleLocation) (tickingFrom 2000),
    .endBreak 1 (tickingFrom 2900),
    .startBreak 1 "LUNCH" (some sampleLocation) (tickingFrom 3000),
    .endShift 1 none (tickingFrom 5000) ]

/-- The document saved at the end of `sampleFullDay`. -/
def sampleFullDayShift : Shift :=
  { employeeId := 1, startTime := 1000, endTime := some 5001,
    location := ⟨6, 80, none⟩, endLocation := none,
    breaks := [⟨"SHORT", 2000, some 2900, ⟨6, 80, none⟩⟩,
               ⟨"LUNCH", 3000, some 5000, ⟨6, 80, none⟩⟩],
    onBreak := false, breakType := none,
    totalWorkingTime := some 1101, totalBreakTime := some 2900 }

/-- Only the user lookup made for the notification rejects. -/
def lookupRejects : Faults :=
  { find := false, save := false, userLookup := true }

/-! ## Lemmas -/

theorem findOne_some {p : Shift → Bool} {st : Store} {i : Nat} {s : Shift}
    (h : findOne p st = some (i, s)) : st[i]? = some s ∧ p s = true := by
  induction st generalizing i with
  | nil => simp [findOne] at h
  | cons a rest ih =>
    unfold findOne at h
    by_cases ha : p a = true
    · simp only [ha, if_true, Option.some.injEq, Prod.mk.injEq] at h
      obtain ⟨rfl, rfl⟩ := h
      exact ⟨by simp, ha⟩
    · simp only [ha] at h
      cases hr : findOne p rest with
      | none => simp [hr] at h
      | some r =>
        obtain ⟨j, r⟩ := r
        simp only [hr, Bool.false_eq_true, if_false, Option.some.injEq, Prod.mk.injEq] at h
        obtain ⟨rfl, rfl⟩ := h
        have := ih hr
        exact ⟨by simpa using this.1, this.2⟩

theorem findOne_none {p : Shift → Bool} {st : Store} :
    findOne p st = none ↔ ∀ s ∈ st, p s = false := by
  induction st with
  | nil => simp [findOne]
  | cons a rest ih =>
    unfold findOne
    by_cases ha : p a = true
    · simp [ha]
    · have ha' : p a = false := by simpa using ha
      cases hr : findOne p rest with
      | none => simpa [ha'] using ih.mp hr
      | some r =>
        obtain ⟨j, r⟩ := r
        have : ¬ ∀ s ∈ rest, p s = false := fun hall => by
          have := ih.mpr hall
          simp [hr] at this
        simp [ha']
        simpa using this

theorem findOne_lt {p : Shift → Bool} {st : Store} {i : Nat} {s : Shift}
    (h : findOne p st = some (i, s)) : i < st.length := by
  have := (findOne_some h).1
  exact (List.getElem?_eq_some.mp this).1

theorem findOne_mem {p : Shift → Bool} {st : Store} {i : Nat} {s : Shift}
    (h : findOne p st = some (i, s)) : s ∈ st :=
  List.getElem?_mem (findOne_some h).1

theorem activeOf_iff {emp : EmployeeId} {s : Shift} :
    activeOf emp s = true ↔ s.employeeId = emp ∧ s.endTime = none := by
  simp [activeOf, Option.isNone_iff_eq_none]

theorem activeOnBreakOf_iff {emp : EmployeeId} {s : Shift} :
    activeOnBreakOf emp s = true ↔
      s.employeeId = emp ∧ s.endTime = none ∧ s.onBreak = true := by
  simp [activeOnBreakOf, Option.isNone_iff_eq_none, and_assoc]

theorem closeCurrentBreak_concat (s : Shift) (init : List Break) (b : Break) (t : Time)
    (h : s.breaks = init ++ [b]) :
    closeCurrentBreak s t =
      .ok { s with breaks := init ++ [{ b with endTime := some t }], onBreak := false,
                   breakType := none } := by
  unfold closeCurrentBreak
  simp [h]

theorem closeCurrentBreak_nil (s : Shift) (t : Time) (h : s.breaks = []) :
    closeCurrentBreak s t = .error .typeError := by
  unfold closeCurrentBreak
  simp [h]

theorem closeCurrentBreak_ok {s s' : Shift} {t : Time} (h : closeCurrentBreak s t = .ok s') :
    ∃ init b, s.breaks = init ++ [b] ∧
      s' = { s with breaks := init ++ [{ b with endTime := some t }], onBreak := false,
                    breakType := none } := by
  rcases List.eq_nil_or_concat s.breaks with hnil | ⟨init, b, hb⟩
  on_goal 2 => rw [List.concat_eq_append] at hb
  · rw [closeCurrentBreak_nil s t hnil] at h
    cases h
  · refine ⟨init, b, hb, ?_⟩
    rw [closeCurrentBreak_concat s init b t hb] at h
    cases h
    rfl

theorem foldl_closedBreakStep_add (l : List Break) (a : Int) :
    l.foldl closedBreakStep a = a + l.foldl closedBreakStep 0 := by
  induction l generalizing a with
  | nil => simp
  | cons b rest ih =>
    simp only [List.foldl_cons]
    rw [ih (closedBreakStep a b), ih (closedBreakStep 0 b)]
    unfold closedBreakStep
    cases b.endTime
    · simp
    · simp only [zero_add]; ring

theorem foldl_breakStepNow_allClosed (clock : Clock) (l : List Break) (acc : Int × Nat)
    (h : AllClosed l) :
    l.foldl (breakStepNow clock) acc = (l.foldl closedBreakStep acc.1, acc.2) := by
  induction l generalizing acc with
  | nil => simp
  | cons b rest ih =>
    have hb : b.endTime ≠ none := h b (List.mem_cons_self _ _)
    have hrest : AllClosed rest := fun x hx => h x (List.mem_cons_of_mem _ hx)
    obtain ⟨e, he⟩ := Option.ne_none_iff_exists'.mp hb
    simp only [List.foldl_cons]
    rw [ih _ hrest]
    simp [breakStepNow, closedBreakStep, he]

theorem sumBreaksNow_allClosed (clock : Clock) (l : List Break) (k : Nat) (h : AllClosed l) :
    sumBreaksNow clock l k = (l.foldl closedBreakStep 0, k) :=
  foldl_breakStepNow_allClosed clock l (0, k) h

theorem calculateWorkingTime_eq (s : Shift) :
    calculateWorkingTime s =
      s.endTime.map (fun e => e - s.startTime - s.breaks.foldl closedBreakStep 0) := by
  unfold calculateWorkingTime
  cases s.endTime with
  | none => rfl
  | some e =>
    cases hb : s.breaks with
    | nil => simp
    | cons b rest => simp

theorem allClosed_append {l₁ l₂ : List Break} :
    AllClosed (l₁ ++ l₂) ↔ AllClosed l₁ ∧ AllClosed l₂ := by
  simp [AllClosed, List.mem_append, or_imp, forall_and]

theorem allClosed_singleton {b : Break} : AllClosed [b] ↔ b.endTime ≠ none := by
  simp [AllClosed]

theorem endShiftUpdate_offBreak (s : Shift) (clock : Clock) (h : s.onBreak = false) :
    endShiftUpdate s clock = .ok (finishAt s clock 0) := by
  simp [endShiftUpdate, h, finishAt]

theorem endShiftUpdate_onBreak (s : Shift) (clock : Clock) (h : s.onBreak = true) :
    endShiftUpdate s clock =
      match closeCurrentBreak s (clock 0) with
      | .error e => .error e
      | .ok s1 => .ok (finishAt s1 clock 1) := by
  simp only [endShiftUpdate, h, if_true]
  cases closeCurrentBreak s (clock 0) <;> simp [finishAt]

theorem finishAt_accounted (s1 : Shift) (clock : Clock) (k : Nat) (h : AllClosed s1.breaks)
    (hb : s1.onBreak = false) :
    Accounted (finishAt s1 clock k) ∧ BreakShape (finishAt s1 clock k) := by
  have hsum : (if s1.breaks.length > 0 then (sumBreaksNow clock s1.breaks (k + 1)).1 else 0)
      = s1.breaks.foldl closedBreakStep 0 := by
    rw [sumBreaksNow_allClosed clock s1.breaks (k + 1) h]
    cases hl : s1.breaks with
    | nil => simp
    | cons b rest => simp
  constructor
  · intro e he
    refine ⟨hb, ?_⟩
    simp only [finishAt, Option.some.injEq] at he
    subst he
    refine ⟨clock k - s1.startTime - s1.breaks.foldl closedBreakStep 0,
      s1.breaks.foldl closedBreakStep 0, ?_, ?_, ?_⟩
    · simp only [finishAt]
      rw [calculateWorkingTime_eq]
      rfl
    · simp only [finishAt, hsum]
    · simp only [finishAt]
      ring
  · constructor
    · intro h'
      simp [finishAt, hb] at h'
    · intro _
      exact h

theorem breakShape_closeCurrentBreak {s s' : Shift} {t : Time} (hs : BreakShape s)
    (hon : s.onBreak = true) (h : closeCurrentBreak s t = .ok s') :
    AllClosed s'.breaks ∧ s'.onBreak = false ∧ s'.endTime = s.endTime := by
  obtain ⟨init, last, hb, hinit, _⟩ := hs.1 hon
  rw [closeCurrentBreak_concat s init last t hb] at h
  cases h
  refine ⟨?_, rfl, rfl⟩
  simp only
  rw [allClosed_append, allClosed_singleton]
  exact ⟨hinit, by simp⟩

theorem endShiftUpdate_ok {s s' : Shift} {clock : Clock} (hs : BreakShape s)
    (h : endShiftUpdate s clock = .ok s') :
    ∃ s1 k, s' = finishAt s1 clock k ∧ AllClosed s1.breaks ∧ s1.onBreak = false ∧
      s1.employeeId = s.employeeId ∧ s1.startTime = s.startTime := by
  cases hon : s.onBreak with
  | false =>
    rw [endShiftUpdate_offBreak s clock hon] at h
    cases h
    exact ⟨s, 0, rfl, hs.2 hon, hon, rfl, rfl⟩
  | true =>
    rw [endShiftUpdate_onBreak s clock hon] at h
    cases hc : closeCurrentBreak s (clock 0) with
    | error e => simp [hc] at h
    | ok s1 =>
      simp only [hc, Except.ok.injEq] at h
      obtain ⟨hall, hoff, _⟩ := breakShape_closeCurrentBreak hs hon hc
      obtain ⟨init, b, _, rfl⟩ := closeCurrentBreak_ok hc
      exact ⟨_, 1, h.symm, hall, hoff, rfl, rfl⟩

theorem trans_frame {s s' : Shift} (h : Trans s s') :
    s.endTime = none ∧ s'.employeeId = s.employeeId ∧ s'.startTime = s.startTime ∧
      s'.location = s.location := by
  cases h with
  | breakStarted type t loc he hb => exact ⟨he, rfl, rfl, rfl⟩
  | breakEnded _ t he hb hc =>
    obtain ⟨init, b, _, rfl⟩ := closeCurrentBreak_ok hc
    exact ⟨he, rfl, rfl, rfl⟩
  | shiftEnded s1 clock loc he hu =>
    refine ⟨he, ?_⟩
    cases hon : s.onBreak with
    | false =>
      rw [endShiftUpdate_offBreak s clock hon] at hu
      cases hu
      exact ⟨rfl, rfl, rfl⟩
    | true =>
      rw [endShiftUpdate_onBreak s clock hon] at hu
      cases hc : closeCurrentBreak s (clock 0) with
      | error e => simp [hc] at hu
      | ok s2 =>
        simp only [hc, Except.ok.injEq] at hu
        obtain ⟨init, b, _, rfl⟩ := closeCurrentBreak_ok hc
        subst hu
        exact ⟨rfl, rfl, rfl⟩

theorem trans_shape {s s' : Shift} (hs : BreakShape s) (h : Trans s s') :
    BreakShape s' ∧ Accounted s' := by
  cases h with
  | breakStarted type t loc he hb =>
    refine ⟨⟨fun _ => ⟨s.breaks, _, rfl, hs.2 hb, rfl⟩, fun h' => by simp at h'⟩, ?_⟩
    intro e h'
    simp [he] at h'
  | breakEnded _ t he hb hc =>
    obtain ⟨hall, hoff, hend⟩ := breakShape_closeCurrentBreak hs hb hc
    refine ⟨⟨fun h' => by simp [hoff] at h', fun _ => hall⟩, ?_⟩
    intro e h'
    rw [hend, he] at h'
    cases h'
  | shiftEnded s1 clock loc he hu =>
    obtain ⟨s2, k, rfl, hall, hoff, _, _⟩ := endShiftUpdate_ok hs hu
    obtain ⟨hacc, hshape⟩ := finishAt_accounted s2 clock k hall hoff
    exact ⟨hshape, hacc⟩

theorem fresh_shape (emp : EmployeeId) (t : Time) (loc : Location) :
    BreakShape (freshShift emp t loc) ∧ Accounted (freshShift emp t loc) := by
  refine ⟨⟨fun h => by simp [freshShift] at h, fun _ b hb => by simp [freshShift] at hb⟩, ?_⟩
  intro e h
  simp [freshShift] at h

/-- Every request leaves the collection as it is, appends a fresh shift for an employee
without an active one, or rewrites one active document by one of the transitions. -/
theorem step_cases (st : Store) (c : Call) :
    (step st c).2 = st ∨
    (∃ emp t loc, findOne (activeOf emp) st = none ∧
      (step st c).2 = st ++ [freshShift emp t loc]) ∨
    (∃ i s s', st[i]? = some s ∧ Trans s s' ∧ (step st c).2 = st.set i s') := by
  cases c with
  | startShift emp location clock =>
    simp only [step, startShift]
    cases hf : findOne (activeOf emp) st with
    | some r => exact Or.inl rfl
    | none =>
      cases hl : requiredLocation "location" location with
      | error e => exact Or.inl rfl
      | ok loc => exact Or.inr (Or.inl ⟨emp, clock 0, loc, hf, rfl⟩)
  | endShift emp location clock =>
    simp only [step, endShift]
    cases hf : findOne (activeOf emp) st with
    | none => exact Or.inl rfl
    | some r =>
      obtain ⟨i, s⟩ := r
      obtain ⟨hi, hp⟩ := findOne_some hf
      dsimp only
      cases hu : endShiftUpdate s clock with
      | error e => exact Or.inl rfl
      | ok s' =>
        dsimp only
        cases hl : optionalLocation "endLocation" location with
        | error e => exact Or.inl rfl
        | ok loc =>
          exact Or.inr (Or.inr ⟨i, s, _, hi,
            Trans.shiftEnded s s' clock loc (activeOf_iff.mp hp).2 hu, rfl⟩)
  | startBreak emp type location clock =>
    simp only [step, startBreak]
    split
    · exact Or.inl rfl
    · cases hf : findOne (activeOf emp) st with
      | none => exact Or.inl rfl
      | some r =>
        obtain ⟨i, s⟩ := r
        obtain ⟨hi, hp⟩ := findOne_some hf
        dsimp only
        cases hon : s.onBreak with
        | true => exact Or.inl (by simp)
        | false =>
          cases hl : requiredLocation "breaks.location" location with
          | error e => exact Or.inl (by simp)
          | ok loc =>
            refine Or.inr (Or.inr ⟨i, s, _, hi,
              Trans.breakStarted s type (clock 0) loc (activeOf_iff.mp hp).2 hon, ?_⟩)
            simp
  | endBreak emp clock =>
    simp only [step, endBreak]
    cases hf : findOne (activeOnBreakOf emp) st with
    | none => exact Or.inl rfl
    | some r =>
      obtain ⟨i, s⟩ := r
      obtain ⟨hi, hp⟩ := findOne_some hf
      dsimp only
      cases hc : closeCurrentBreak s (clock 0) with
      | error e => exact Or.inl rfl
      | ok s' =>
        exact Or.inr (Or.inr ⟨i, s, s', hi,
          Trans.breakEnded s s' (clock 0) (activeOnBreakOf_iff.mp hp).2.1
            (activeOnBreakOf_iff.mp hp).2.2 hc, rfl⟩)

theorem findOne_of_mem {p : Shift → Bool} {st : Store} {s : Shift} (hs : s ∈ st)
    (hp : p s = true) : ∃ i r, findOne p st = some (i, r) := by
  cases hf : findOne p st with
  | none =>
    have := findOne_none.mp hf s hs
    rw [hp] at this
    cases this
  | some r => exact ⟨r.1, r.2, rfl⟩

theorem step_preserves (st : Store) (c : Call)
    (h : ∀ s ∈ st, BreakShape s ∧ Accounted s) :
    ∀ s ∈ (step st c).2, BreakShape s ∧ Accounted s := by
  rcases step_cases st c with heq | ⟨emp, t, loc, _, heq⟩ | ⟨i, s0, s1, hi, htr, heq⟩
  · rw [heq]; exact h
  · rw [heq]
    intro s hs
    rcases List.mem_append.mp hs with hs | hs
    · exact h s hs
    · rw [List.mem_singleton] at hs
      subst hs
      exact fresh_shape emp t loc
  · rw [heq]
    intro s hs
    rcases List.mem_or_eq_of_mem_set hs with hs | hs
    · exact h s hs
    · subst hs
      exact trans_shape (h s0 (List.getElem?_mem hi)).1 htr

theorem run_append (st : Store) (calls : List Call) (c : Call) :
    run st (calls ++ [c]) = (step (run st calls) c).2 := by
  simp [run, List.foldl_append]

theorem run_preserves (st : Store) (calls : List Call)
    (h : ∀ s ∈ st, BreakShape s ∧ Accounted s) :
    ∀ s ∈ run st calls, BreakShape s ∧ Accounted s := by
  induction calls generalizing st with
  | nil => exact h
  | cons c rest ih => exact ih _ (step_preserves st c h)

theorem reachable_ok (calls : List Call) :
    ∀ s ∈ run [] calls, BreakShape s ∧ Accounted s :=
  run_preserves [] calls (fun s hs => by cases hs)

theorem endShiftUpdate_of_shape {s : Shift} (hs : BreakShape s) (clock : Clock) :
    ∃ s1 k, endShiftUpdate s clock = .ok (finishAt s1 clock k) ∧ AllClosed s1.breaks ∧
      s1.onBreak = false ∧ s1.startTime = s.startTime ∧ s1.employeeId = s.employeeId := by
  cases hon : s.onBreak with
  | false => exact ⟨s, 0, endShiftUpdate_offBreak s clock hon, hs.2 hon, hon, rfl, rfl⟩
  | true =>
    obtain ⟨init, last, hb, hinit, _⟩ := hs.1 hon
    refine ⟨{ s with breaks := init ++ [{ last with endTime := some (clock 0) }],
                     onBreak := false, breakType := none }, 1, ?_, ?_, rfl, rfl, rfl⟩
    · rw [endShiftUpdate_onBreak s clock hon, closeCurrentBreak_concat s init last _ hb]
    · simp only
      rw [allClosed_append, allClosed_singleton]
      exact ⟨hinit, by simp⟩

theorem breakShape_index {s : Shift} (hs : BreakShape s) :
    (∀ (i : Nat) (hi : i < s.breaks.length),
      s.breaks[i].endTime = none ↔ (i + 1 = s.breaks.length ∧ s.onBreak = true)) ∧
    (s.onBreak = true ↔ ∃ b, s.breaks.getLast? = some b ∧ b.endTime = none) := by
  cases hon : s.onBreak with
  | false =>
    have hall := hs.2 hon
    constructor
    · intro i hi
      have := hall _ (List.getElem_mem hi)
      simp [this]
    · simp only [Bool.false_eq_true, false_iff, not_exists, not_and]
      intro b hb
      exact hall b (List.mem_of_getLast?_eq_some hb)
  | true =>
    obtain ⟨init, last, hb, hinit, hlast⟩ := hs.1 hon
    constructor
    · intro i hi
      have hlen : s.breaks.length = init.length + 1 := by simp [hb]
      have hget : s.breaks[i]? = (init ++ [last])[i]? := by rw [hb]
      rw [List.getElem?_eq_getElem hi] at hget
      by_cases hlt : i < init.length
      · rw [List.getElem?_append_left hlt, List.getElem?_eq_getElem hlt] at hget
        have hc := hinit _ (List.getElem_mem hlt)
        have : s.breaks[i] = init[i] := Option.some.inj hget
        rw [this]
        constructor
        · intro h; exact absurd h hc
        · rintro ⟨h, _⟩; omega
      · have hi' : i = init.length := by omega
        subst hi'
        rw [List.getElem?_append_right (le_refl _)] at hget
        simp only [Nat.sub_self, List.getElem?_cons_zero, Option.some.injEq] at hget
        rw [hget]
        simp [hlast, hlen]
    · simp only [true_iff]
      exact ⟨last, by simp [hb], hlast⟩

/-! ## The claims -/

/-- C1. After any sequence of lifecycle requests served from the empty collection, ending the
active shift of an employee (on break or not, with an absent or well-formed location)
succeeds, and the record that is saved satisfies
`totalWorkingTime + totalBreakTime = endTime - startTime` exactly, in milliseconds. -/
theorem endShift_totals_add_up (calls : List Call) (emp : EmployeeId)
    (location : Option ReqLocation) (endLoc : Option Location) (clock : Clock)
    (hact : ∃ old ∈ run [] calls, old.employeeId = emp ∧ old.endTime = none)
    (hloc : optionalLocation "endLocation" location = .ok endLoc) :
    ∃ i old s, (run [] calls)[i]? = some old ∧ old.employeeId = emp ∧ old.endTime = none ∧
      endShift (run [] calls) emp location clock
        = (⟨200, .shift s⟩, (run [] calls).set i s) ∧
      s.startTime = old.startTime ∧
      ∃ e w b, s.endTime = some e ∧ s.totalWorkingTime = some w ∧
        s.totalBreakTime = some b ∧ w + b = e - s.startTime := by
  obtain ⟨old0, hmem, hemp, hend⟩ := hact
  obtain ⟨i, old, hf⟩ := findOne_of_mem hmem (activeOf_iff.mpr ⟨hemp, hend⟩)
  obtain ⟨hi, hp⟩ := findOne_some hf
  obtain ⟨hemp', hend'⟩ := activeOf_iff.mp hp
  have hshape := (reachable_ok calls old (List.getElem?_mem hi)).1
  obtain ⟨s1, k, hu, hall, hoff, hstart, _⟩ := endShiftUpdate_of_shape hshape clock
  obtain ⟨hacc, _⟩ := finishAt_accounted s1 clock k hall hoff
  obtain ⟨_, w, b, hw, hb, hsum⟩ := hacc (clock k) rfl
  refine ⟨i, old, { finishAt s1 clock k with endLocation := endLoc }, hi, hemp', hend', ?_,
    hstart, clock k, w, b, rfl, hw, hb, hsum⟩
  simp only [endShift, hf, hu, hloc]

/-- Witness for C1: employee 1 ends the shift while on the break started at 2000; the break
is closed at 5000, the shift at 5001, and 1001 + 3000 = 5001 - 1000. -/
theorem endShift_totals_add_up_witness :
    ∃ i old s, (run [] sampleOnBreak)[i]? = some old ∧ old.employeeId = 1 ∧
      old.endTime = none ∧
      endShift (run [] sampleOnBreak) 1 none (tickingFrom 5000)
        = (⟨200, .shift s⟩, (run [] sampleOnBreak).set i s) ∧
      s.startTime = old.startTime ∧
      ∃ e w b, s.endTime = some e ∧ s.totalWorkingTime = some w ∧
        s.totalBreakTime = some b ∧ w + b = e - s.startTime :=
  endShift_totals_add_up sampleOnBreak 1 none none (tickingFrom 5000)
    (by decide) rfl

/-- C2. In every document of a collection reached from the empty one by any sequence of
accepted or rejected lifecycle requests, a break has no end time if and only if it is the
last element of `breaks` and `onBreak` is true; and `onBreak` is true if and only if the
last break exists and is open. -/
theorem open_break_iff_last_and_onBreak (calls : List Call) (s : Shift)
    (hs : s ∈ run [] calls) :
    (∀ (i : Nat) (hi : i < s.breaks.length),
      s.breaks[i].endTime = none ↔ (i + 1 = s.breaks.length ∧ s.onBreak = true)) ∧
    (s.onBreak = true ↔ ∃ b, s.breaks.getLast? = some b ∧ b.endTime = none) :=
  breakShape_index (reachable_ok calls s hs).1

/-- Witness for C2: the document of employee 1 after clocking in and starting a break. -/
theorem open_break_iff_last_and_onBreak_witness :
    sampleOnBreakShift ∈ run [] sampleOnBreak ∧
    (∀ (i : Nat) (hi : i < sampleOnBreakShift.breaks.length),
      sampleOnBreakShift.breaks[i].endTime = none ↔
        (i + 1 = sampleOnBreakShift.breaks.length ∧ sampleOnBreakShift.onBreak = true)) ∧
    (sampleOnBreakShift.onBreak = true ↔
      ∃ b, sampleOnBreakShift.breaks.getLast? = some b ∧ b.endTime = none) :=
  ⟨by decide, open_break_iff_last_and_onBreak sampleOnBreak sampleOnBreakShift (by decide)⟩

/-- C3, as stated, fails: ending the shift of employee 1 while on break, with a clock that
advances by one millisecond between its readings, closes the break at 5000 and the shift
at 5001. -/
theorem endShift_break_end_differs :
    endShift (run [] sampleOnBreak) 1 none (tickingFrom 5000)
        = (⟨200, .shift sampleEndedOnBreak⟩, [sampleEndedOnBreak]) ∧
      ∃ b, sampleEndedOnBreak.breaks.getLast? = some b ∧ b.endTime = some 5000 ∧
        sampleEndedOnBreak.endTime = some 5001 ∧ b.endTime ≠ sampleEndedOnBreak.endTime :=
  ⟨by decide, ⟨"SHORT", 2000, some 5000, ⟨6, 80, none⟩⟩, rfl, rfl, rfl, by decide⟩

/-- C3, amended. When `endShift` succeeds on an active shift that is on break, the last
break is closed at the first clock reading of the call and the shift at the second one
(so the two end times are equal exactly when the clock did not advance in between), the
earlier breaks are untouched, `onBreak` is false and `breakType` is null. -/
theorem endShift_closes_open_break (st st' : Store) (emp : EmployeeId)
    (location : Option ReqLocation) (clock : Clock) (i : Nat) (old s : Shift)
    (hf : findOne (activeOf emp) st = some (i, old)) (hon : old.onBreak = true)
    (h : endShift st emp location clock = (⟨200, .shift s⟩, st')) :
    st' = st.set i s ∧
    (∃ init last, old.breaks = init ++ [last] ∧
      s.breaks = init ++ [{ last with endTime := some (clock 0) }]) ∧
    (∃ b, s.breaks.getLast? = some b ∧ b.endTime = some (clock 0) ∧
      (b.endTime = s.endTime ↔ clock 0 = clock 1)) ∧
    s.endTime = some (clock 1) ∧ s.onBreak = false ∧ s.breakType = none := by
  simp only [endShift, hf, endShiftUpdate_onBreak old clock hon] at h
  cases hc : closeCurrentBreak old (clock 0) with
  | error e =>
    simp only [hc] at h
    cases e <;> simp [handleError] at h
  | ok s1 =>
    simp only [hc] at h
    obtain ⟨init, last, hb, rfl⟩ := closeCurrentBreak_ok hc
    cases hl : optionalLocation "endLocation" location with
    | error e =>
      simp only [hl] at h
      cases e <;> simp [handleError] at h
    | ok loc =>
      simp only [hl, Prod.mk.injEq, Response.mk.injEq, Body.shift.injEq, true_and] at h
      obtain ⟨rfl, rfl⟩ := h
      refine ⟨rfl, ⟨init, last, hb, rfl⟩, ⟨{ last with endTime := some (clock 0) }, ?_, rfl, ?_⟩,
        rfl, rfl, rfl⟩
      · simp [finishAt]
      · simp [finishAt]

/-- Witness for C3 amended: the call of the counterexample, where the break is closed at
reading 5000 and the shift at reading 5001. -/
theorem endShift_closes_open_break_witness :
    [sampleEndedOnBreak] = (run [] sampleOnBreak).set 0 sampleEndedOnBreak ∧
    (∃ init last, sampleOnBreakShift.breaks = init ++ [last] ∧
      sampleEndedOnBreak.breaks
        = init ++ [{ last with endTime := some (tickingFrom 5000 0) }]) ∧
    (∃ b, sampleEndedOnBreak.breaks.getLast? = some b ∧
      b.endTime = some (tickingFrom 5000 0) ∧
      (b.endTime = sampleEndedOnBreak.endTime ↔ tickingFrom 5000 0 = tickingFrom 5000 1)) ∧
    sampleEndedOnBreak.endTime = some (tickingFrom 5000 1) ∧
    sampleEndedOnBreak.onBreak = false ∧ sampleEndedOnBreak.breakType = none :=
  endShift_closes_open_break (run [] sampleOnBreak) [sampleEndedOnBreak] 1 none
    (tickingFrom 5000) 0 sampleOnBreakShift sampleEndedOnBreak
    (by decide) (by decide) (by decide)

/-- C4. When the employee already has a shift without an end time, `startShift` answers
400 `You already have an active shift` and the collection is returned as it was: no shift is
created and no field of any stored shift changes. -/
theorem startShift_conflict (st : Store) (emp : EmployeeId) (location : Option ReqLocation)
    (clock : Clock) (h : ∃ s ∈ st, s.employeeId = emp ∧ s.endTime = none) :
    startShift st emp location clock
      = (⟨400, .message "You already have an active shift"⟩, st) := by
  obtain ⟨s, hs, hemp, hend⟩ := h
  obtain ⟨i, r, hf⟩ := findOne_of_mem hs (activeOf_iff.mpr ⟨hemp, hend⟩)
  simp only [startShift, hf]

/-- Witness for C4: employee 1, on shift and on break, asks to start a shift again. -/
theorem startShift_conflict_witness :
    (∃ s ∈ run [] sampleOnBreak, s.employeeId = 1 ∧ s.endTime = none) ∧
    startShift (run [] sampleOnBreak) 1 (some sampleLocation) (tickingFrom 9000)
      = (⟨400, .message "You already have an active shift"⟩, run [] sampleOnBreak) :=
  ⟨by decide,
   startShift_conflict (run [] sampleOnBreak) 1 (some sampleLocation) (tickingFrom 9000)
    (by decide)⟩

theorem activeCount_append (st : Store) (x : Shift) (emp : EmployeeId) :
    activeCount (st ++ [x]) emp = activeCount st emp + (if activeOf emp x then 1 else 0) := by
  unfold activeCount
  rw [List.filter_append, List.length_append]
  by_cases hx : activeOf emp x = true <;> simp [List.filter, hx]

theorem activeCount_eq_zero {st : Store} {emp : EmployeeId}
    (h : findOne (activeOf emp) st = none) : activeCount st emp = 0 := by
  unfold activeCount
  rw [List.length_eq_zero, List.filter_eq_nil_iff]
  intro s hs
  simp [findOne_none.mp h s hs]

theorem activeCount_set_le (p : Shift → Bool) (st : Store) (i : Nat) (s s' : Shift)
    (hi : st[i]? = some s) (hp : p s' = true → p s = true) :
    ((st.set i s').filter p).length ≤ (st.filter p).length := by
  induction st generalizing i with
  | nil => simp at hi
  | cons a rest ih =>
    cases i with
    | zero =>
      simp only [List.getElem?_cons_zero, Option.some.injEq] at hi
      subst hi
      simp only [List.set_cons_zero, List.filter_cons]
      by_cases h' : p s' = true
      · simp [h', hp h']
      · have h'' : p s' = false := by simpa using h'
        simp only [h'', Bool.false_eq_true, if_false]
        split
        · simp
        · exact le_refl _
    | succ j =>
      simp only [List.getElem?_cons_succ] at hi
      simp only [List.set_cons_succ, List.filter_cons]
      have := ih j hi
      split <;> simp [this]

theorem step_atMostOne (st : Store) (c : Call) (h : AtMostOneActive st) :
    AtMostOneActive (step st c).2 := by
  intro emp'
  rcases step_cases st c with heq | ⟨emp, t, loc, hnone, heq⟩ | ⟨i, s0, s1, hi, htr, heq⟩
  · rw [heq]; exact h emp'
  · rw [heq, activeCount_append]
    by_cases he : emp = emp'
    · subst he
      rw [activeCount_eq_zero hnone]
      split <;> simp
    · have : activeOf emp' (freshShift emp t loc) = false := by
        simp [activeOf, freshShift, he]
      simp only [this, Bool.false_eq_true, if_false, Nat.add_zero]
      exact h emp'
  · rw [heq]
    obtain ⟨hend, hemp, _, _⟩ := trans_frame htr
    refine le_trans (activeCount_set_le (activeOf emp') st i s0 s1 hi ?_) (h emp')
    intro h1
    rw [activeOf_iff] at h1 ⊢
    exact ⟨hemp ▸ h1.1, hend⟩

theorem run_atMostOne (st : Store) (calls : List Call) (h : AtMostOneActive st) :
    AtMostOneActive (run st calls) := by
  induction calls generalizing st with
  | nil => exact h
  | cons c rest ih => exact ih _ (step_atMostOne st c h)

theorem active_unique {st : Store} {emp : EmployeeId} (h : activeCount st emp ≤ 1)
    {a b : Shift} (ha : a ∈ st) (hb : b ∈ st) (hpa : activeOf emp a = true)
    (hpb : activeOf emp b = true) : a = b := by
  unfold activeCount at h
  have ha' : a ∈ st.filter (activeOf emp) := List.mem_filter.mpr ⟨ha, hpa⟩
  have hb' : b ∈ st.filter (activeOf emp) := List.mem_filter.mpr ⟨hb, hpb⟩
  match hl : st.filter (activeOf emp), h, ha', hb' with
  | [], _, ha', _ => cases ha'
  | [x], _, ha', hb' =>
    rw [List.mem_singleton] at ha' hb'
    rw [ha', hb']
  | _ :: _ :: _, h, _, _ => simp at h

/-- C5. If each employee has at most one shift without an end time, this is still so after
any sequence of `startShift`, `startBreak`, `endBreak` and `endShift` requests served one at
a time. -/
theorem run_atMostOneActive (st : Store) (calls : List Call) (h : AtMostOneActive st) :
    AtMostOneActive (run st calls) :=
  run_atMostOne st calls h

/-- Witness for C5: from the collection holding the open shift of employee 1, through a
rejected start, a start by employee 2, an end and a new start by employee 1. -/
theorem run_atMostOneActive_witness :
    AtMostOneActive (run [] sampleOnBreak) ∧
    AtMostOneActive (run (run [] sampleOnBreak) sampleFollowUp) :=
  have h : AtMostOneActive (run [] sampleOnBreak) :=
    fun _ => le_trans (List.length_filter_le _ _) (by decide)
  ⟨h, run_atMostOneActive (run [] sampleOnBreak) sampleFollowUp h⟩

theorem requiredLocation_ok_iff (path : String) (location : Option ReqLocation)
    (loc : Location) :
    requiredLocation path location = .ok loc ↔
      ∃ r, location = some r ∧ castLocation r = some loc := by
  cases location with
  | none => simp [requiredLocation]
  | some r =>
    cases hc : castLocation r with
    | none => simp [requiredLocation, hc]
    | some l => simp [requiredLocation, hc]

theorem requiredLocation_error (path : String) (location : Option ReqLocation) (e : Thrown)
    (h : requiredLocation path location = .error e) : e = .validationError path := by
  cases location with
  | none => simp [requiredLocation] at h; exact h.symm
  | some r =>
    cases hc : castLocation r with
    | none => simp [requiredLocation, hc] at h; exact h.symm
    | some l => simp [requiredLocation, hc] at h

/-- C6, as stated, fails: employee 1 has an active shift that is not on break and asks for
a `SHORT` break without a location; the break sub-document fails schema validation on
save, the answer is 400 and nothing is stored. -/
theorem startBreak_without_location_rejected :
    ("SHORT" = "LUNCH" ∨ "SHORT" = "SHORT") ∧
    (∃ s ∈ run [] sampleOnShift, s.employeeId = 1 ∧ s.endTime = none ∧ s.onBreak = false) ∧
    startBreak (run [] sampleOnShift) 1 "SHORT" none (tickingFrom 2000)
      = (⟨400, .validation "breaks.location"⟩, run [] sampleOnShift) :=
  ⟨by decide, by decide, by decide⟩

/-- C6, amended. `startBreak` succeeds if and only if the requested type is `LUNCH` or
`SHORT`, the active shift found for the employee is not on break, and the request carries a
location with latitude and longitude. Any other type is answered 400 `Invalid break type`
whatever the collection; a valid type on a shift already on break is answered 400
`You are already on break`; both leave the collection as it was. On success exactly one
break `{type, startTime = now, location}` is appended after the existing breaks, `onBreak`
becomes true and `breakType` becomes the type. -/
theorem startBreak_outcome (st : Store) (emp : EmployeeId) (type : String)
    (location : Option ReqLocation) (clock : Clock) :
    (¬ (type = "LUNCH" ∨ type = "SHORT") →
      startBreak st emp type location clock = (⟨400, .message "Invalid break type"⟩, st)) ∧
    (∀ i s, (type = "LUNCH" ∨ type = "SHORT") → findOne (activeOf emp) st = some (i, s) →
      s.onBreak = true →
      startBreak st emp type location clock
        = (⟨400, .message "You are already on break"⟩, st)) ∧
    ((startBreak st emp type location clock).1.status = 200 ↔
      (type = "LUNCH" ∨ type = "SHORT") ∧
      (∃ i s, findOne (activeOf emp) st = some (i, s) ∧ s.onBreak = false) ∧
      (∃ r loc, location = some r ∧ castLocation r = some loc)) ∧
    (∀ i s r loc, (type = "LUNCH" ∨ type = "SHORT") →
      findOne (activeOf emp) st = some (i, s) → s.onBreak = false →
      location = some r → castLocation r = some loc →
      startBreak st emp type location clock
        = (⟨200, .shift { s with breaks := s.breaks ++ [⟨type, clock 0, none, loc⟩],
                                 onBreak := true, breakType := some type }⟩,
           st.set i { s with breaks := s.breaks ++ [⟨type, clock 0, none, loc⟩],
                             onBreak := true, breakType := some type })) := by
  have hsucc : ∀ i s r loc, (type = "LUNCH" ∨ type = "SHORT") →
      findOne (activeOf emp) st = some (i, s) → s.onBreak = false →
      location = some r → castLocation r = some loc →
      startBreak st emp type location clock
        = (⟨200, .shift { s with breaks := s.breaks ++ [⟨type, clock 0, none, loc⟩],
                                 onBreak := true, breakType := some type }⟩,
           st.set i { s with breaks := s.breaks ++ [⟨type, clock 0, none, loc⟩],
                             onBreak := true, breakType := some type }) := by
    intro i s r loc ht hf hon hl hc
    have hreq : requiredLocation "breaks.location" location = .ok loc :=
      (requiredLocation_ok_iff _ _ _).mpr ⟨r, hl, hc⟩
    have ht' : (type == "LUNCH" || type == "SHORT") = true := by simpa using ht
    simp only [startBreak, ht', hf, hon, hreq]
    simp
  refine ⟨?_, ?_, ?_, hsucc⟩
  · intro ht
    have ht' : (type == "LUNCH" || type == "SHORT") = false := by
      simpa using ht
    simp only [startBreak, ht']
    simp
  · intro i s ht hf hon
    have ht' : (type == "LUNCH" || type == "SHORT") = true := by simpa using ht
    simp only [startBreak, ht', hf, hon]
    simp
  · constructor
    · intro h
      by_cases ht : type = "LUNCH" ∨ type = "SHORT"
      · have ht' : (type == "LUNCH" || type == "SHORT") = true := by simpa using ht
        refine ⟨ht, ?_⟩
        cases hf : findOne (activeOf emp) st with
        | none =>
          simp only [startBreak, ht', hf] at h
          simp at h
        | some r =>
          obtain ⟨i, s⟩ := r
          cases hon : s.onBreak with
          | true =>
            simp only [startBreak, ht', hf, hon] at h
            simp at h
          | false =>
            refine ⟨⟨i, s, rfl, hon⟩, ?_⟩
            cases hl : requiredLocation "breaks.location" location with
            | error e =>
              have := requiredLocation_error _ _ _ hl
              subst this
              simp only [startBreak, ht', hf, hon, hl] at h
              simp [handleError] at h
            | ok loc =>
              obtain ⟨r, hr, hc⟩ := (requiredLocation_ok_iff _ _ _).mp hl
              exact ⟨r, loc, hr, hc⟩
      · have ht' : (type == "LUNCH" || type == "SHORT") = false := by
          simpa using ht
        simp only [startBreak, ht'] at h
        simp at h
    · rintro ⟨ht, ⟨i, s, hf, hon⟩, r, loc, hl, hc⟩
      rw [hsucc i s r loc ht hf hon hl hc]

/-- Witness for C6 amended: employee 1, on shift and not on break, starts a `SHORT` break
with a well-formed location at 2000. -/
theorem startBreak_outcome_witness :
    ("SHORT" = "LUNCH" ∨ "SHORT" = "SHORT") ∧
    findOne (activeOf 1) (run [] sampleOnShift) = some (0, sampleOnShiftShift) ∧
    startBreak (run [] sampleOnShift) 1 "SHORT" (some sampleLocation) (tickingFrom 2000)
      = (⟨200, .shift sampleOnBreakShift⟩, [sampleOnBreakShift]) :=
  ⟨by decide, by decide,
   (startBreak_outcome (run [] sampleOnShift) 1 "SHORT" (some sampleLocation)
      (tickingFrom 2000)).2.2.2 0 sampleOnShiftShift sampleLocation ⟨6, 80, none⟩
      (by decide) (by decide) (by decide) rfl (by decide)⟩

/-- C7. In a collection reached from the empty one: if no active shift of the employee has
an open break (in particular if there is no active shift), `endBreak` answers 404
`No active break found` and the collection is returned as it was; if the employee has an
active shift that is on break, `endBreak` answers 200 and rewrites that document only,
giving its last break the end time `now` and clearing `onBreak` and `breakType`, every
other field and every earlier break being kept. -/
theorem endBreak_outcome (calls : List Call) (emp : EmployeeId) (clock : Clock) :
    ((∀ s ∈ run [] calls, s.employeeId = emp → s.endTime = none →
        ∀ b ∈ s.breaks, b.endTime ≠ none) →
      endBreak (run [] calls) emp clock
        = (⟨404, .message "No active break found"⟩, run [] calls)) ∧
    (∀ s ∈ run [] calls, s.employeeId = emp → s.endTime = none → s.onBreak = true →
      ∃ i init last, (run [] calls)[i]? = some s ∧ s.breaks = init ++ [last] ∧
        endBreak (run [] calls) emp clock
          = (⟨200, .shift { s with breaks := init ++ [{ last with endTime := some (clock 0) }],
                                   onBreak := false, breakType := none }⟩,
             (run [] calls).set i
               { s with breaks := init ++ [{ last with endTime := some (clock 0) }],
                        onBreak := false, breakType := none })) := by
  constructor
  · intro hclosed
    have hnone : findOne (activeOnBreakOf emp) (run [] calls) = none := by
      rw [findOne_none]
      intro s hs
      by_contra hp
      have hp' : activeOnBreakOf emp s = true := by simpa using hp
      obtain ⟨hemp, hend, hon⟩ := activeOnBreakOf_iff.mp hp'
      obtain ⟨init, last, hb, _, hlast⟩ := (reachable_ok calls s hs).1.1 hon
      exact hclosed s hs hemp hend last (by simp [hb]) hlast
    simp only [endBreak, hnone]
  · intro s hs hemp hend hon
    obtain ⟨i, r, hf⟩ := findOne_of_mem hs (activeOnBreakOf_iff.mpr ⟨hemp, hend, hon⟩)
    obtain ⟨hi, hp⟩ := findOne_some hf
    obtain ⟨hemp', hend', _⟩ := activeOnBreakOf_iff.mp hp
    have hone := run_atMostOne [] calls (fun e => by simp [activeCount]) emp
    have hrs : r = s :=
      active_unique hone (List.getElem?_mem hi) hs (activeOf_iff.mpr ⟨hemp', hend'⟩)
        (activeOf_iff.mpr ⟨hemp, hend⟩)
    subst hrs
    obtain ⟨init, last, hb, _, _⟩ := (reachable_ok calls r hs).1.1 hon
    refine ⟨i, init, last, hi, hb, ?_⟩
    simp only [endBreak, hf, closeCurrentBreak_concat r init last (clock 0) hb]

/-- Witness for C7: employee 2 has no shift at all and gets 404; employee 1, on break since
2000, ends the break at 2900. -/
theorem endBreak_outcome_witness :
    endBreak (run [] sampleOnBreak) 2 (tickingFrom 2900)
      = (⟨404, .message "No active break found"⟩, run [] sampleOnBreak) ∧
    ∃ i init last, (run [] sampleOnBreak)[i]? = some sampleOnBreakShift ∧
      sampleOnBreakShift.breaks = init ++ [last] ∧
      endBreak (run [] sampleOnBreak) 1 (tickingFrom 2900)
        = (⟨200, .shift { sampleOnBreakShift with
              breaks := init ++ [{ last with endTime := some (tickingFrom 2900 0) }],
              onBreak := false, breakType := none }⟩,
           (run [] sampleOnBreak).set i
             { sampleOnBreakShift with
               breaks := init ++ [{ last with endTime := some (tickingFrom 2900 0) }],
               onBreak := false, breakType := none }) :=
  ⟨(endBreak_outcome sampleOnBreak 2 (tickingFrom 2900)).1 (by decide),
   (endBreak_outcome sampleOnBreak 1 (tickingFrom 2900)).2 sampleOnBreakShift
     (by decide) (by decide) (by decide) (by decide)⟩

theorem findOne_append_new {p : Shift → Bool} {st : Store} {x : Shift}
    (h : findOne p st = none) (hx : p x = true) :
    findOne p (st ++ [x]) = some (st.length, x) := by
  induction st with
  | nil => simp [findOne, hx]
  | cons a rest ih =>
    have ha : p a = false := findOne_none.mp h a (List.mem_cons_self _ _)
    have hrest : findOne p rest = none :=
      findOne_none.mpr (fun s hs => findOne_none.mp h s (List.mem_cons_of_mem _ hs))
    simp [findOne, ha, ih hrest]

theorem findOne_onBreak_none {st : Store} {emp : EmployeeId}
    (h : findOne (activeOf emp) st = none) : findOne (activeOnBreakOf emp) st = none := by
  rw [findOne_none] at h ⊢
  intro s hs
  have := h s hs
  unfold activeOf at this
  unfold activeOnBreakOf
  rw [this, Bool.false_and]

theorem set_append_last (st : Store) (x y : Shift) :
    (st ++ [x]).set st.length y = st ++ [y] := by
  induction st with
  | nil => rfl
  | cons a rest ih => simp [ih]

/-- C8. For every start instant `T0`, every collection in which the employee has no active
shift and all well-formed locations: a shift started at `T0`, with one `SHORT` break from
`T0 + 1 h` to `T0 + 1 h 15 min`, and ended at `T0 + 8 h`, is answered 200 and saved with
`totalBreakTime = 900000` and `totalWorkingTime = 27900000`. -/
theorem eight_hour_shift_with_short_break (st : Store) (emp : EmployeeId) (T0 : Time)
    (l1 l2 : ReqLocation) (loc1 loc2 : Location) (l4 : Option ReqLocation)
    (endLoc : Option Location) (c1 c2 c3 c4 : Clock)
    (hno : findOne (activeOf emp) st = none)
    (h1 : castLocation l1 = some loc1) (h2 : castLocation l2 = some loc2)
    (h4 : optionalLocation "endLocation" l4 = .ok endLoc)
    (hc1 : c1 0 = T0) (hc2 : c2 0 = T0 + 3600000) (hc3 : c3 0 = T0 + 4500000)
    (hc4 : c4 0 = T0 + 28800000) :
    ∃ s, step (run st [.startShift emp (some l1) c1, .startBreak emp "SHORT" (some l2) c2,
                       .endBreak emp c3]) (.endShift emp l4 c4)
          = (⟨200, .shift s⟩, st ++ [s]) ∧
      s.employeeId = emp ∧ s.startTime = T0 ∧ s.endTime = some (T0 + 28800000) ∧
      s.breaks = [⟨"SHORT", T0 + 3600000, some (T0 + 4500000), loc2⟩] ∧
      s.totalBreakTime = some 900000 ∧ s.totalWorkingTime = some 27900000 := by
  have hr1 : requiredLocation "location" (some l1) = .ok loc1 :=
    (requiredLocation_ok_iff _ _ _).mpr ⟨l1, rfl, h1⟩
  have hr2 : requiredLocation "breaks.location" (some l2) = .ok loc2 :=
    (requiredLocation_ok_iff _ _ _).mpr ⟨l2, rfl, h2⟩
  have e1 : (step st (.startShift emp (some l1) c1)).2 = st ++ [freshShift emp T0 loc1] := by
    simp only [step, startShift, hno, hr1, hc1]
  have hf1 : findOne (activeOf emp) (st ++ [freshShift emp T0 loc1])
      = some (st.length, freshShift emp T0 loc1) :=
    findOne_append_new hno (by simp [activeOf, freshShift])
  have e2 : (step (st ++ [freshShift emp T0 loc1]) (.startBreak emp "SHORT" (some l2) c2)).2
      = st ++ [⟨emp, T0, none, loc1, none, [⟨"SHORT", T0 + 3600000, none, loc2⟩], true,
                some "SHORT", none, none⟩] := by
    simp only [step, startBreak, hf1, hr2, hc2]
    simp [freshShift, set_append_last]
  have hf2 : findOne (activeOnBreakOf emp)
      (st ++ [⟨emp, T0, none, loc1, none, [⟨"SHORT", T0 + 3600000, none, loc2⟩], true,
                some "SHORT", none, none⟩])
      = some (st.length, ⟨emp, T0, none, loc1, none,
          [⟨"SHORT", T0 + 3600000, none, loc2⟩], true, some "SHORT", none, none⟩) :=
    findOne_append_new (findOne_onBreak_none hno) (by simp [activeOnBreakOf])
  have e3 : (step (st ++ [⟨emp, T0, none, loc1, none,
      [⟨"SHORT", T0 + 3600000, none, loc2⟩], true, some "SHORT", none, none⟩])
      (.endBreak emp c3)).2
      = st ++ [⟨emp, T0, none, loc1, none,
          [⟨"SHORT", T0 + 3600000, some (T0 + 4500000), loc2⟩], false, none, none, none⟩] := by
    simp only [step, endBreak, hf2]
    simp [closeCurrentBreak, set_append_last, hc3]
  have hf3 : findOne (activeOf emp)
      (st ++ [⟨emp, T0, none, loc1, none,
          [⟨"SHORT", T0 + 3600000, some (T0 + 4500000), loc2⟩], false, none, none, none⟩])
      = some (st.length, ⟨emp, T0, none, loc1, none,
          [⟨"SHORT", T0 + 3600000, some (T0 + 4500000), loc2⟩], false, none, none, none⟩) :=
    findOne_append_new hno (by simp [activeOf])
  refine ⟨⟨emp, T0, some (T0 + 28800000), loc1, endLoc,
    [⟨"SHORT", T0 + 3600000, some (T0 + 4500000), loc2⟩], false, none, some 27900000,
    some 900000⟩, ?_, rfl, rfl, rfl, rfl, rfl, rfl⟩
  simp only [run, List.foldl_cons, List.foldl_nil, e1, e2, e3]
  simp only [step, endShift, hf3]
  rw [endShiftUpdate_offBreak _ _ rfl]
  simp only [h4, set_append_last]
  have hw : T0 + 28800000 - T0 - (0 + (T0 + 4500000 - (T0 + 3600000))) = 27900000 := by ring
  simp [finishAt, calculateWorkingTime, closedBreakStep, sumBreaksNow, breakStepNow, hc4, hw]

/-- Witness for C8: employee 1 in the empty collection, `T0 = 1000000`. -/
theorem eight_hour_shift_with_short_break_witness :
    ∃ s, step (run [] [.startShift 1 (some sampleLocation) (tickingFrom 1000000),
                       .startBreak 1 "SHORT" (some sampleLocation) (tickingFrom 4600000),
                       .endBreak 1 (tickingFrom 5500000)])
              (.endShift 1 none (tickingFrom 29800000))
          = (⟨200, .shift s⟩, [] ++ [s]) ∧
      s.employeeId = 1 ∧ s.startTime = 1000000 ∧ s.endTime = some (1000000 + 28800000) ∧
      s.breaks = [⟨"SHORT", 1000000 + 3600000, some (1000000 + 4500000), ⟨6, 80, none⟩⟩] ∧
      s.totalBreakTime = some 900000 ∧ s.totalWorkingTime = some 27900000 :=
  eight_hour_shift_with_short_break [] 1 1000000 sampleLocation sampleLocation
    ⟨6, 80, none⟩ ⟨6, 80, none⟩ none none (tickingFrom 1000000) (tickingFrom 4600000)
    (tickingFrom 5500000) (tickingFrom 29800000) rfl rfl rfl rfl
    (by decide) (by decide) (by decide) (by decide)

theorem breakStepNow_from (clock : Clock) (now : Time) (k0 : Nat)
    (hc : ∀ k, k0 ≤ k → clock k = now) (acc : Int × Nat) (b : Break) (hacc : k0 ≤ acc.2) :
    (breakStepNow clock acc b).1 = acc.1 + specBreakMs now b ∧
      k0 ≤ (breakStepNow clock acc b).2 := by
  unfold breakStepNow specBreakMs
  cases b.endTime with
  | none =>
    simp only [Option.getD_none, hc acc.2 hacc]
    exact ⟨trivial, Nat.le_succ_of_le hacc⟩
  | some e =>
    simp only [Option.getD_some]
    exact ⟨trivial, hacc⟩

theorem foldl_breakStepNow_from (clock : Clock) (now : Time) (k0 : Nat)
    (hc : ∀ k, k0 ≤ k → clock k = now) (l : List Break) (acc : Int × Nat)
    (hacc : k0 ≤ acc.2) :
    (l.foldl (breakStepNow clock) acc).1 = acc.1 + (l.map (specBreakMs now)).sum ∧
      k0 ≤ (l.foldl (breakStepNow clock) acc).2 := by
  induction l generalizing acc with
  | nil => exact ⟨by simp, hacc⟩
  | cons b rest ih =>
    obtain ⟨h1, h2⟩ := breakStepNow_from clock now k0 hc acc b hacc
    obtain ⟨h3, h4⟩ := ih (breakStepNow clock acc b) h2
    simp only [List.foldl_cons, List.map_cons, List.sum_cons]
    exact ⟨by rw [h3, h1]; ring, h4⟩

theorem shiftStep_from (clock : Clock) (now : Time) (k0 : Nat)
    (hc : ∀ k, k0 ≤ k → clock k = now) (acc : Int × Nat) (s : Shift) (hacc : k0 ≤ acc.2) :
    (shiftStep clock acc s).1 = acc.1 + specWorkingMs now s ∧
      k0 ≤ (shiftStep clock acc s).2 := by
  have hend : (match s.endTime with
      | some e => (e, acc.2)
      | none => (clock acc.2, acc.2 + 1)).1 = s.endTime.getD now ∧
      k0 ≤ (match s.endTime with
      | some e => (e, acc.2)
      | none => (clock acc.2, acc.2 + 1)).2 := by
    cases s.endTime with
    | none => exact ⟨by simp [hc acc.2 hacc], Nat.le_succ_of_le hacc⟩
    | some e => exact ⟨by simp, hacc⟩
  unfold shiftStep specWorkingMs sumBreaksNow
  cases hb : s.breaks with
  | nil =>
    simp only [List.length_nil, gt_iff_lt, lt_self_iff_false, if_false, List.map_nil,
      List.sum_nil, sub_zero]
    exact ⟨by rw [hend.1], hend.2⟩
  | cons b rest =>
    simp only [List.length_cons, gt_iff_lt, Nat.zero_lt_succ, if_true]
    obtain ⟨h1, h2⟩ := foldl_breakStepNow_from clock now k0 hc (b :: rest) (0, _) hend.2
    refine ⟨?_, h2⟩
    rw [h1, hend.1]
    simp

theorem calculateTotalMs_from (clock : Clock) (now : Time) (k0 : Nat)
    (hc : ∀ k, k0 ≤ k → clock k = now) (shifts : List Shift) (k : Nat) (hk : k0 ≤ k) :
    (calculateTotalMs clock shifts k).1 = (shifts.map (specWorkingMs now)).sum ∧
      k0 ≤ (calculateTotalMs clock shifts k).2 := by
  have gen : ∀ (l : List Shift) (acc : Int × Nat), k0 ≤ acc.2 →
      (l.foldl (shiftStep clock) acc).1 = acc.1 + (l.map (specWorkingMs now)).sum ∧
        k0 ≤ (l.foldl (shiftStep clock) acc).2 := by
    intro l
    induction l with
    | nil => intro acc hacc; exact ⟨by simp, hacc⟩
    | cons a rest ih =>
      intro acc hacc
      obtain ⟨h1, h2⟩ := shiftStep_from clock now k0 hc acc a hacc
      obtain ⟨h3, h4⟩ := ih (shiftStep clock acc a) h2
      simp only [List.foldl_cons, List.map_cons, List.sum_cons]
      exact ⟨by rw [h3, h1]; ring, h4⟩
  unfold calculateTotalMs
  obtain ⟨h1, h2⟩ := gen shifts (0, k) hk
  exact ⟨by rw [h1]; simp, h2⟩

theorem find_startsWithin (emp : EmployeeId) (lo hi : Time) (store : Store) :
    find (startsWithin emp lo hi) store
      = store.filter (fun s => decide (s.employeeId = emp ∧ lo ≤ s.startTime ∧
          s.startTime ≤ hi)) := by
  unfold find
  apply List.filter_congr
  intro s _
  have : (s.employeeId == emp) = decide (s.employeeId = emp) := by
    by_cases h : s.employeeId = emp <;> simp [h]
  simp [startsWithin, this]

theorem calculateTotalHours_from (clock : Clock) (now : Time) (k0 : Nat)
    (hc : ∀ k, k0 ≤ k → clock k = now) (emp : EmployeeId) (lo hi : Time) (store : Store)
    (k : Nat) (hk : k0 ≤ k) :
    (calculateTotalHours clock (find (startsWithin emp lo hi) store) k).1
      = specHours now emp lo hi store ∧
    k0 ≤ (calculateTotalHours clock (find (startsWithin emp lo hi) store) k).2 := by
  obtain ⟨h1, h2⟩ :=
    calculateTotalMs_from clock now k0 hc (find (startsWithin emp lo hi) store) k hk
  refine ⟨?_, h2⟩
  unfold calculateTotalHours specHours
  simp only
  rw [h1, find_startsWithin]
  norm_num

theorem specHours_cons_before (now : Time) (emp : EmployeeId) (lo hi : Time) (s : Shift)
    (store : Store) (h : s.startTime < lo) :
    specHours now emp lo hi (s :: store) = specHours now emp lo hi store := by
  unfold specHours
  have : decide (s.employeeId = emp ∧ lo ≤ s.startTime ∧ s.startTime ≤ hi) = false := by
    simp only [decide_eq_false_iff_not, not_and, not_le]
    intro _ h'
    exact absurd h' (not_le.mpr h)
  rw [List.filter_cons_of_neg (by simp [this])]

/-- C9, as stated, fails: employee 1 is on shift since 1000 and on break since 2000, and the
statistics are asked with a clock that advances by one millisecond per reading (`today` is
read at 5000, the end of the open shift at 5001, the end of the open break at 5002). The
handler reports 999 ms for today, while the formula of the claim gives 1000 ms whatever
instant is taken for `now`. -/
theorem statistics_with_ticking_clock :
    (getShiftStatistics utcDateFns (run [] sampleOnBreak) 1 (tickingFrom 5000)).today
      = 999 / 3600000 ∧
    ∀ now, specHours now 1 (utcDateFns.startOfDay 5000) (utcDateFns.endOfDay 5000)
      (run [] sampleOnBreak) = 1000 / 3600000 := by
  constructor
  · have h : calculateTotalMs (tickingFrom 5000)
        (find (startsWithin 1 (utcDateFns.startOfDay (tickingFrom 5000 0))
          (utcDateFns.endOfDay (tickingFrom 5000 0))) (run [] sampleOnBreak)) 1
        = (999, 3) := by decide
    show ((calculateTotalMs (tickingFrom 5000)
        (find (startsWithin 1 (utcDateFns.startOfDay (tickingFrom 5000 0))
          (utcDateFns.endOfDay (tickingFrom 5000 0))) (run [] sampleOnBreak)) 1).1 : ℚ)
        / (1000 * 60 * 60) = 999 / 3600000
    rw [h]
    norm_num
  · intro now
    have hf : (run [] sampleOnBreak).filter (fun s => decide (s.employeeId = 1 ∧
        utcDateFns.startOfDay 5000 ≤ s.startTime ∧ s.startTime ≤ utcDateFns.endOfDay 5000))
        = [sampleOnBreakShift] := by decide
    unfold specHours
    rw [hf]
    have : specWorkingMs now sampleOnBreakShift = 1000 := by
      simp only [specWorkingMs, specBreakMs, sampleOnBreakShift, Option.getD_none,
        List.map_cons, List.map_nil, List.sum_cons, List.sum_nil]
      ring
    simp [this]

/-- C9, amended. The windows are the bounds `date-fns` returns for `today`, the first clock
reading of the call (the week functions being called with `weekStartsOn: 1`). When every
later reading of the call, the ones that value the open shifts and the open breaks, is the
same instant `now`, each of the three figures of `getShiftStatistics` equals the sum, over
exactly the shifts of the employee whose `startTime` lies inside the window (bounds
inclusive), of `(endTime or now) - startTime` minus the sum over the breaks of
`(break endTime or now) - break startTime`, divided by 3,600,000; a shift that starts
before a window contributes nothing to it, wherever it ends. -/
theorem statistics_at_an_instant (df : DateFns) (store : Store) (emp : EmployeeId)
    (clock : Clock) (now : Time) (hc : ∀ k, 1 ≤ k → clock k = now) :
    (getShiftStatistics df store emp clock).today
      = specHours now emp (df.startOfDay (clock 0)) (df.endOfDay (clock 0)) store ∧
    (getShiftStatistics df store emp clock).weekly
      = specHours now emp (df.startOfWeek (clock 0) 1) (df.endOfWeek (clock 0) 1) store ∧
    (getShiftStatistics df store emp clock).monthly
      = specHours now emp (df.startOfMonth (clock 0)) (df.endOfMonth (clock 0)) store ∧
    (∀ s : Shift, s.startTime < df.startOfDay (clock 0) →
      (getShiftStatistics df (s :: store) emp clock).today
        = (getShiftStatistics df store emp clock).today) ∧
    (∀ s : Shift, s.startTime < df.startOfWeek (clock 0) 1 →
      (getShiftStatistics df (s :: store) emp clock).weekly
        = (getShiftStatistics df store emp clock).weekly) ∧
    (∀ s : Shift, s.startTime < df.startOfMonth (clock 0) →
      (getShiftStatistics df (s :: store) emp clock).monthly
        = (getShiftStatistics df store emp clock).monthly) := by
  have hd : ∀ st : Store, (getShiftStatistics df st emp clock).today
      = specHours now emp (df.startOfDay (clock 0)) (df.endOfDay (clock 0)) st := by
    intro st
    simp only [getShiftStatistics]
    exact (calculateTotalHours_from clock now 1 hc emp _ _ st 1 (le_refl 1)).1
  have hw : ∀ st : Store, (getShiftStatistics df st emp clock).weekly
      = specHours now emp (df.startOfWeek (clock 0) 1) (df.endOfWeek (clock 0) 1) st := by
    intro st
    simp only [getShiftStatistics]
    exact (calculateTotalHours_from clock now 1 hc emp _ _ st _
      (calculateTotalHours_from clock now 1 hc emp _ _ st 1 (le_refl 1)).2).1
  have hm : ∀ st : Store, (getShiftStatistics df st emp clock).monthly
      = specHours now emp (df.startOfMonth (clock 0)) (df.endOfMonth (clock 0)) st := by
    intro st
    simp only [getShiftStatistics]
    exact (calculateTotalHours_from clock now 1 hc emp _ _ st _
      (calculateTotalHours_from clock now 1 hc emp _ _ st _
        (calculateTotalHours_from clock now 1 hc emp _ _ st 1 (le_refl 1)).2).2).1
  refine ⟨hd store, hw store, hm store, ?_, ?_, ?_⟩
  · intro s hs
    rw [hd, hd, specHours_cons_before now emp _ _ s store hs]
  · intro s hs
    rw [hw, hw, specHours_cons_before now emp _ _ s store hs]
  · intro s hs
    rw [hm, hm, specHours_cons_before now emp _ _ s store hs]

/-- Witness for C9 amended: the collection of the counterexample; `today` is read at 5000
and, after the three queries, every open end at 5007. The open shift of employee 1 counts
`(5007 - 1000) - (5007 - 2000) = 1000` ms in each window. -/
theorem statistics_at_an_instant_witness :
    (∀ k, 1 ≤ k → readingThen 5000 5007 k = 5007) ∧
    (getShiftStatistics utcDateFns (run [] sampleOnBreak) 1 (readingThen 5000 5007)).today
      = specHours 5007 1 (utcDateFns.startOfDay (readingThen 5000 5007 0))
          (utcDateFns.endOfDay (readingThen 5000 5007 0)) (run [] sampleOnBreak) ∧
    utcDateFns.startOfDay (readingThen 5000 5007 0) = 0 ∧
    utcDateFns.endOfDay (readingThen 5000 5007 0) = 86399999 ∧
    utcDateFns.startOfWeek (readingThen 5000 5007 0) 1 = -259200000 ∧
    utcDateFns.endOfWeek (readingThen 5000 5007 0) 1 = 345599999 ∧
    utcDateFns.startOfMonth (readingThen 5000 5007 0) = 0 ∧
    utcDateFns.endOfMonth (readingThen 5000 5007 0) = 2678399999 :=
  have hc : ∀ k, 1 ≤ k → readingThen 5000 5007 k = 5007 := by
    intro k hk
    simp only [readingThen]
    rw [if_neg (by omega)]
  ⟨hc,
   (statistics_at_an_instant utcDateFns (run [] sampleOnBreak) 1 (readingThen 5000 5007)
      5007 hc).1,
   by decide, by decide, by decide, by decide, by decide, by decide⟩

theorem foldl_closedBreakStep_eq_sum (breaks : List Break) :
    breaks.foldl closedBreakStep 0 = (closedBreakDurations breaks).sum := by
  induction breaks with
  | nil => rfl
  | cons b rest ih =>
    rw [List.foldl_cons, foldl_closedBreakStep_add, ih]
    unfold closedBreakStep closedBreakDurations
    cases hb : b.endTime with
    | none => simp [List.filterMap_cons, hb]
    | some e => simp [List.filterMap_cons, hb]

theorem endShiftUpdate_totalWorkingTime {s s' : Shift} {clock : Clock}
    (h : endShiftUpdate s clock = .ok s') (endLoc : Option Location) :
    s'.totalWorkingTime = calculateWorkingTime { s' with endLocation := endLoc } := by
  cases hon : s.onBreak with
  | false =>
    rw [endShiftUpdate_offBreak s clock hon] at h
    cases h
    simp [finishAt, calculateWorkingTime]
  | true =>
    rw [endShiftUpdate_onBreak s clock hon] at h
    cases hc : closeCurrentBreak s (clock 0) with
    | error e => simp [hc] at h
    | ok s1 =>
      simp only [hc, Except.ok.injEq] at h
      subst h
      simp [finishAt, calculateWorkingTime]

/-- C10, as stated, fails: after a break from 0 to 20, `endShift` reading the clock at 10
answers 200 and saves `totalWorkingTime = -10`, which is also what `calculateWorkingTime`
returns on the saved record; nothing is thrown and nothing is clamped. -/
theorem endShift_stores_negative_working_time :
    endShift (run [] sampleClockSetBack) 1 none (standingAt 10)
      = (⟨200, .shift sampleNegative⟩, [sampleNegative]) ∧
    sampleNegative.totalWorkingTime = some (-10) ∧
    calculateWorkingTime sampleNegative = some (-10) :=
  ⟨by decide, rfl, by decide⟩

/-- C10, amended. On every record with an end time `calculateWorkingTime` returns
`endTime - startTime` minus the summed durations of the closed breaks, unchecked: the result
is negative exactly when that sum exceeds `endTime - startTime`, and it is never replaced by
zero or by an error. The `totalWorkingTime` that a successful `endShift` stores is this
value for the saved record. -/
theorem calculateWorkingTime_unchecked (s : Shift) (e : Time) (h : s.endTime = some e) :
    calculateWorkingTime s
      = some (e - s.startTime - (closedBreakDurations s.breaks).sum) ∧
    (∀ w, calculateWorkingTime s = some w →
      (w < 0 ↔ e - s.startTime < (closedBreakDurations s.breaks).sum)) ∧
    (∀ (st st' : Store) (emp : EmployeeId) (location : Option ReqLocation) (clock : Clock),
      endShift st emp location clock = (⟨200, .shift s⟩, st') →
      s.totalWorkingTime = some (e - s.startTime - (closedBreakDurations s.breaks).sum)) := by
  have hcalc : calculateWorkingTime s
      = some (e - s.startTime - (closedBreakDurations s.breaks).sum) := by
    rw [calculateWorkingTime_eq, h, foldl_closedBreakStep_eq_sum]
    rfl
  refine ⟨hcalc, ?_, ?_⟩
  · intro w hw
    rw [hcalc] at hw
    cases hw
    constructor <;> intro h' <;> linarith
  · intro st st' emp location clock hres
    rw [← hcalc]
    simp only [endShift] at hres
    cases hf : findOne (activeOf emp) st with
    | none => simp [hf] at hres
    | some r =>
      obtain ⟨i, old⟩ := r
      simp only [hf] at hres
      cases hu : endShiftUpdate old clock with
      | error err =>
        simp only [hu] at hres
        cases err <;> simp [handleError] at hres
      | ok s1 =>
        simp only [hu] at hres
        cases hl : optionalLocation "endLocation" location with
        | error err =>
          simp only [hl] at hres
          cases err <;> simp [handleError] at hres
        | ok endLoc =>
          simp only [hl, Prod.mk.injEq, Response.mk.injEq, Body.shift.injEq, true_and] at hres
          obtain ⟨rfl, _⟩ := hres
          exact endShiftUpdate_totalWorkingTime hu endLoc

/-- Witness for C10 amended: the record of the counterexample, whose closed break of 20 ms
exceeds the 10 ms between start and end. -/
theorem calculateWorkingTime_unchecked_witness :
    sampleNegative.endTime = some 10 ∧
    calculateWorkingTime sampleNegative
      = some (10 - sampleNegative.startTime
          - (closedBreakDurations sampleNegative.breaks).sum) ∧
    sampleNegative.totalWorkingTime
      = some (10 - sampleNegative.startTime
          - (closedBreakDurations sampleNegative.breaks).sum) :=
  ⟨rfl, (calculateWorkingTime_unchecked sampleNegative 10 rfl).1,
   (calculateWorkingTime_unchecked sampleNegative 10 rfl).2.2 (run [] sampleClockSetBack)
     [sampleNegative] 1 none (standingAt 10) (by decide)⟩

theorem stepF_store (f : Faults) (st : Store) (c : Call) :
    (stepF f st c).2 = st ∨ (stepF f st c).2 = (step st c).2 := by
  cases c with
  | startShift emp location clock =>
    simp only [stepF, step, startShiftF]
    split
    · exact Or.inl rfl
    · split
      · split
        · exact Or.inl rfl
        · split
          · exact Or.inr rfl
          · exact Or.inr rfl
      · exact Or.inr rfl
  | endShift emp location clock =>
    simp only [stepF, step, endShiftF]
    split
    · exact Or.inl rfl
    · split
      · split
        · exact Or.inl rfl
        · split
          · exact Or.inr rfl
          · exact Or.inr rfl
      · exact Or.inr rfl
  | startBreak emp type location clock =>
    simp only [stepF, step, startBreakF]
    split
    · exact Or.inr rfl
    · split
      · exact Or.inl rfl
      · split
        · split
          · exact Or.inl rfl
          · exact Or.inr rfl
        · exact Or.inr rfl
  | endBreak emp clock =>
    simp only [stepF, step, endBreakF]
    split
    · exact Or.inl rfl
    · split
      · split
        · exact Or.inl rfl
        · exact Or.inr rfl
      · exact Or.inr rfl

theorem step_closed_frame (st : Store) (c : Call) (i : Nat) (s : Shift) (e : Time)
    (hi : st[i]? = some s) (he : s.endTime = some e) : (step st c).2[i]? = some s := by
  rcases step_cases st c with heq | ⟨emp, t, loc, _, heq⟩ | ⟨j, s0, s1, hj, htr, heq⟩
  · rw [heq]; exact hi
  · rw [heq]
    have hlt : i < st.length := (List.getElem?_eq_some.mp hi).1
    rw [List.getElem?_append_left hlt]
    exact hi
  · rw [heq]
    have hne : j ≠ i := by
      rintro rfl
      rw [hi] at hj
      cases hj
      rw [(trans_frame htr).1] at he
      cases he
    rw [List.getElem?_set_ne hne]
    exact hi

theorem stepF_closed_frame (f : Faults) (st : Store) (c : Call) (i : Nat) (s : Shift)
    (e : Time) (hi : st[i]? = some s) (he : s.endTime = some e) :
    (stepF f st c).2[i]? = some s := by
  rcases stepF_store f st c with h | h
  · rw [h]; exact hi
  · rw [h]; exact step_closed_frame st c i s e hi he

/-- C12. A shift that has an end time is never modified again: whatever the collection and
whatever sequence of `startShift`, `startBreak`, `endBreak` and `endShift` requests by any
employees follows (with or without rejected database operations), the document stays at
its position with every field identical. -/
theorem closed_shift_is_immutable (st : Store) (calls : List (Faults × Call)) (i : Nat)
    (s : Shift) (e : Time) (hi : st[i]? = some s) (he : s.endTime = some e) :
    (runF st calls)[i]? = some s := by
  induction calls generalizing st with
  | nil => exact hi
  | cons c rest ih => exact ih _ (stepF_closed_frame c.1 st c.2 i s e hi he)

/-- Witness for C12: the shift of employee 1 ended at 5001 stays as it is through a break
request, an end-of-break request, a second clock-out and two new clock-ins. -/
theorem closed_shift_is_immutable_witness :
    [sampleEndedOnBreak][0]? = some sampleEndedOnBreak ∧
    sampleEndedOnBreak.endTime = some 5001 ∧
    (runF [sampleEndedOnBreak] sampleAfterEnd)[0]? = some sampleEndedOnBreak ∧
    (runF [sampleEndedOnBreak] sampleAfterEnd).length = 2 :=
  ⟨rfl, rfl,
   closed_shift_is_immutable [sampleEndedOnBreak] sampleAfterEnd 0 sampleEndedOnBreak 5001
     rfl rfl,
   by decide⟩

theorem foldl_fallbackBreakStep (breaks : List Break) (a : Int) :
    breaks.foldl fallbackBreakStep a = breaks.foldl closedBreakStep a := by
  induction breaks generalizing a with
  | nil => rfl
  | cons b rest ih =>
    simp only [List.foldl_cons]
    rw [show fallbackBreakStep a b = closedBreakStep a b from rfl, ih]

/-- C14. On every record with an end time, whatever its breaks (closed or open), the inline
calculation of `endShift` returns the same number as `Shift.calculateWorkingTime`:
`endTime - startTime` minus the sum of `endTime - startTime` over the breaks that have an
end time. So the value `endShift` assigns does not depend on which branch is taken. -/
theorem fallback_equals_calculateWorkingTime (s : Shift) (e : Time)
    (he : s.endTime = some e) :
    fallbackWorkingTime s = calculateWorkingTime s ∧
    fallbackWorkingTime s = some (e - s.startTime - (closedBreakDurations s.breaks).sum) ∧
    ∀ hasMethod, workingTimeOf hasMethod s
      = some (e - s.startTime - (closedBreakDurations s.breaks).sum) := by
  have hfb : fallbackWorkingTime s
      = some (e - s.startTime - (closedBreakDurations s.breaks).sum) := by
    unfold fallbackWorkingTime
    rw [he]
    simp only [foldl_fallbackBreakStep, foldl_closedBreakStep_eq_sum]
    cases hb : s.breaks with
    | nil => simp [closedBreakDurations]
    | cons b rest => simp
  have hcw : calculateWorkingTime s
      = some (e - s.startTime - (closedBreakDurations s.breaks).sum) := by
    rw [calculateWorkingTime_eq, he, foldl_closedBreakStep_eq_sum]
    rfl
  refine ⟨by rw [hfb, hcw], hfb, ?_⟩
  intro hasMethod
  cases hasMethod
  · simp only [workingTimeOf, hfb, Bool.false_eq_true, if_false]
  · simp only [workingTimeOf, hcw, if_true]

/-- Witness for C14: a record ended at 100 with a closed break 10..30 and an open break from
50; both calculations give 100 - 0 - 20 = 80. -/
theorem fallback_equals_calculateWorkingTime_witness :
    sampleOpenBreakInClosedShift.endTime = some 100 ∧
    fallbackWorkingTime sampleOpenBreakInClosedShift = some 80 ∧
    calculateWorkingTime sampleOpenBreakInClosedShift = some 80 ∧
    fallbackWorkingTime sampleOpenBreakInClosedShift
      = calculateWorkingTime sampleOpenBreakInClosedShift :=
  ⟨rfl, by decide, by decide,
   (fallback_equals_calculateWorkingTime sampleOpenBreakInClosedShift 100 rfl).1⟩

theorem finishAt_stored (s1 : Shift) (clock : Clock) (k : Nat) (hall : AllClosed s1.breaks)
    (endLoc : Option Location) :
    Stored { finishAt s1 clock k with endLocation := endLoc } := by
  intro e he
  simp only [finishAt, Option.some.injEq] at he
  subst he
  refine ⟨hall, ?_, ?_⟩
  · simp only [finishAt]
    rw [calculateWorkingTime_eq, foldl_closedBreakStep_eq_sum]
    rfl
  · simp only [finishAt, sumBreaksNow_allClosed clock s1.breaks (k + 1) hall,
      foldl_closedBreakStep_eq_sum]
    cases hl : s1.breaks with
    | nil => simp [closedBreakDurations]
    | cons b rest => simp

theorem trans_stored {s s' : Shift} (hs : BreakShape s) (h : Trans s s') : Stored s' := by
  cases h with
  | breakStarted type t loc he hb =>
    intro e h'
    simp [he] at h'
  | breakEnded _ t he hb hc =>
    obtain ⟨_, _, hend⟩ := breakShape_closeCurrentBreak hs hb hc
    intro e h'
    rw [hend, he] at h'
    cases h'
  | shiftEnded s1 clock loc he hu =>
    obtain ⟨s2, k, rfl, hall, _, _, _⟩ := endShiftUpdate_ok hs hu
    exact finishAt_stored s2 clock k hall loc

theorem fresh_stored (emp : EmployeeId) (t : Time) (loc : Location) :
    Stored (freshShift emp t loc) := by
  intro e h
  simp [freshShift] at h

theorem run_stored (st : Store) (calls : List Call)
    (h : ∀ s ∈ st, BreakShape s ∧ Stored s) :
    ∀ s ∈ run st calls, BreakShape s ∧ Stored s := by
  induction calls generalizing st with
  | nil => exact h
  | cons c rest ih =>
    apply ih
    show ∀ s ∈ (step st c).2, BreakShape s ∧ Stored s
    rcases step_cases st c with heq | ⟨emp, t, loc, _, heq⟩ | ⟨i, s0, s1, hi, htr, heq⟩
    · rw [heq]; exact h
    · rw [heq]
      intro s hs
      rcases List.mem_append.mp hs with hs | hs
      · exact h s hs
      · rw [List.mem_singleton] at hs
        subst hs
        exact ⟨(fresh_shape emp t loc).1, fresh_stored emp t loc⟩
    · rw [heq]
      intro s hs
      rcases List.mem_or_eq_of_mem_set hs with hs | hs
      · exact h s hs
      · subst hs
        have hshape := (h s0 (List.getElem?_mem hi)).1
        exact ⟨(trans_shape hshape htr).1, trans_stored hshape htr⟩

theorem shiftStep_closed (clock : Clock) (acc : Int × Nat) (s : Shift) (e : Time)
    (he : s.endTime = some e) (hall : AllClosed s.breaks) :
    shiftStep clock acc s
      = (acc.1 + (e - s.startTime - (closedBreakDurations s.breaks).sum), acc.2) := by
  unfold shiftStep
  rw [he]
  simp only [sumBreaksNow_allClosed clock s.breaks acc.2 hall, foldl_closedBreakStep_eq_sum]
  cases hb : s.breaks with
  | nil => simp [closedBreakDurations]
  | cons b rest => simp

theorem calculateTotalMs_closed (clock : Clock) (shifts : List Shift) (k : Nat)
    (h : ∀ s ∈ shifts, (∃ e, s.endTime = some e) ∧ AllClosed s.breaks) :
    calculateTotalMs clock shifts k
      = ((shifts.map (fun s => (calculateWorkingTime s).getD 0)).sum, k) := by
  have gen : ∀ (l : List Shift) (acc : Int × Nat),
      (∀ s ∈ l, (∃ e, s.endTime = some e) ∧ AllClosed s.breaks) →
      l.foldl (shiftStep clock) acc
        = (acc.1 + (l.map (fun s => (calculateWorkingTime s).getD 0)).sum, acc.2) := by
    intro l
    induction l with
    | nil => intro acc _; simp
    | cons a rest ih =>
      intro acc hl
      obtain ⟨⟨e, he⟩, hall⟩ := hl a (List.mem_cons_self _ _)
      simp only [List.foldl_cons, List.map_cons, List.sum_cons]
      rw [shiftStep_closed clock acc a e he hall,
        ih _ (fun s hs => hl s (List.mem_cons_of_mem _ hs))]
      have : calculateWorkingTime a
          = some (e - a.startTime - (closedBreakDurations a.breaks).sum) := by
        rw [calculateWorkingTime_eq, he, foldl_closedBreakStep_eq_sum]
        rfl
      simp only [this, Option.getD_some]
      rw [add_assoc]
  unfold calculateTotalMs
  rw [gen shifts (0, k) h]
  simp

theorem endShift_saved_totalWorkingTime {st st' : Store} {emp : EmployeeId}
    {location : Option ReqLocation} {clock : Clock} {s : Shift}
    (hres : endShift st emp location clock = (⟨200, .shift s⟩, st')) :
    s.totalWorkingTime = calculateWorkingTime s := by
  simp only [endShift] at hres
  cases hf : findOne (activeOf emp) st with
  | none => simp [hf] at hres
  | some r =>
    obtain ⟨i, old⟩ := r
    simp only [hf] at hres
    cases hu : endShiftUpdate old clock with
    | error err =>
      simp only [hu] at hres
      cases err <;> simp [handleError] at hres
    | ok s1 =>
      simp only [hu] at hres
      cases hl : optionalLocation "endLocation" location with
      | error err =>
        simp only [hl] at hres
        cases err <;> simp [handleError] at hres
      | ok endLoc =>
        simp only [hl, Prod.mk.injEq, Response.mk.injEq, Body.shift.injEq, true_and] at hres
        obtain ⟨rfl, _⟩ := hres
        exact endShiftUpdate_totalWorkingTime hu endLoc

/-- C15. For closed shifts all of whose breaks are closed, and for every clock: the
milliseconds the statistics loop adds for a shift are the value of
`Shift.calculateWorkingTime` on it, no clock reading being taken; hence the hours computed
for a list of such shifts are the sum of these values divided by 3,600,000; for a record
saved by `endShift` this value is the stored `totalWorkingTime`, so for shifts taken from a
collection reached from the empty one the hours are the sum of the stored
`totalWorkingTime` divided by 3,600,000. -/
theorem statistics_agree_with_stored_totals (shifts : List Shift) (clock : Clock) (k : Nat)
    (h : ∀ s ∈ shifts, (∃ e, s.endTime = some e) ∧ AllClosed s.breaks) :
    (∀ s ∈ shifts, ∀ acc : Int × Nat, ∃ w, calculateWorkingTime s = some w ∧
      shiftStep clock acc s = (acc.1 + w, acc.2)) ∧
    calculateTotalHours clock shifts k
      = (((shifts.map (fun s => (calculateWorkingTime s).getD 0)).sum : ℚ) / 3600000, k) ∧
    (∀ s ∈ shifts, ∀ (st st' : Store) (emp : EmployeeId) (location : Option ReqLocation)
      (clock' : Clock), endShift st emp location clock' = (⟨200, .shift s⟩, st') →
      s.totalWorkingTime = calculateWorkingTime s) ∧
    (∀ calls : List Call, (∀ s ∈ shifts, s ∈ run [] calls) →
      calculateTotalHours clock shifts k
        = (((shifts.map (fun s => s.totalWorkingTime.getD 0)).sum : ℚ) / 3600000, k)) := by
  refine ⟨?_, ?_, ?_, ?_⟩
  rotate_left 3
  · intro calls hmem
    unfold calculateTotalHours
    rw [calculateTotalMs_closed clock shifts k h]
    have hmap : shifts.map (fun s => (calculateWorkingTime s).getD 0)
        = shifts.map (fun s => s.totalWorkingTime.getD 0) := by
      apply List.map_congr_left
      intro s hs
      obtain ⟨⟨e, he⟩, _⟩ := h s hs
      obtain ⟨_, hw, _⟩ := (run_stored [] calls (fun s hs => by cases hs) s (hmem s hs)).2 e he
      rw [hw, calculateWorkingTime_eq, he, foldl_closedBreakStep_eq_sum]
      rfl
    rw [hmap]
    norm_num
    rfl
  · intro s hs acc
    obtain ⟨⟨e, he⟩, hall⟩ := h s hs
    refine ⟨e - s.startTime - (closedBreakDurations s.breaks).sum, ?_,
      shiftStep_closed clock acc s e he hall⟩
    rw [calculateWorkingTime_eq, he, foldl_closedBreakStep_eq_sum]
    rfl
  · unfold calculateTotalHours
    rw [calculateTotalMs_closed clock shifts k h]
    norm_num
  · intro s _ st st' emp location clock' hres
    exact endShift_saved_totalWorkingTime hres

/-- Witness for C15: the shift of employee 1 saved by `endShift` with the clock
`tickingFrom 5000`, later read by the statistics with another clock. -/
theorem statistics_agree_with_stored_totals_witness :
    calculateWorkingTime sampleEndedOnBreak = some 1001 ∧
    calculateTotalHours (tickingFrom 9000) [sampleEndedOnBreak] 1
      = ((([sampleEndedOnBreak].map (fun s => (calculateWorkingTime s).getD 0)).sum : ℚ)
          / 3600000, 1) ∧
    sampleEndedOnBreak.totalWorkingTime = calculateWorkingTime sampleEndedOnBreak :=
  have h : ∀ s ∈ [sampleEndedOnBreak], (∃ e, s.endTime = some e) ∧ AllClosed s.breaks := by
    simp [AllClosed, sampleEndedOnBreak]
  ⟨by decide,
   (statistics_agree_with_stored_totals [sampleEndedOnBreak] (tickingFrom 9000) 1 h).2.1,
   (statistics_agree_with_stored_totals [sampleEndedOnBreak] (tickingFrom 9000) 1 h).2.2.1
     sampleEndedOnBreak (List.mem_singleton.mpr rfl) (run [] sampleOnBreak)
     [sampleEndedOnBreak] 1 none (tickingFrom 5000) (by decide)⟩

theorem breaksTimeline_append (l₁ l₂ : List Break) :
    breaksTimeline (l₁ ++ l₂) = breaksTimeline l₁ ++ breaksTimeline l₂ := by
  induction l₁ with
  | nil => rfl
  | cons b rest ih => simp [breaksTimeline, ih]

theorem pairwise_snoc {l : List Time} {t : Time} (hl : l.Pairwise (fun a b => a ≤ b))
    (hb : ∀ x ∈ l, x ≤ t) : (l ++ [t]).Pairwise (fun a b => a ≤ b) := by
  rw [List.pairwise_append]
  refine ⟨hl, List.pairwise_singleton _ _, ?_⟩
  intro a ha b hb'
  rw [List.mem_singleton] at hb'
  subst hb'
  exact hb a ha

theorem timeInv_snoc {hw t : Time} {s s' : Shift} (hs : TimeInv hw s)
    (hopen : s.endTime = none) (ht : hw ≤ t) (htl : timeline s' = timeline s ++ [t]) :
    (timeline s').Pairwise (fun a b => a ≤ b) ∧ ∀ x ∈ timeline s', x ≤ t := by
  have hb : ∀ x ∈ timeline s, x ≤ t := fun x hx => le_trans (hs.2 hopen x hx) ht
  rw [htl]
  refine ⟨pairwise_snoc hs.1 hb, ?_⟩
  intro x hx
  rcases List.mem_append.mp hx with hx | hx
  · exact hb x hx
  · rw [List.mem_singleton] at hx
    rw [hx]

theorem timeline_breakStarted (s : Shift) (type : String) (t : Time) (loc : Location)
    (hopen : s.endTime = none) :
    timeline { s with breaks := s.breaks ++ [⟨type, t, none, loc⟩], onBreak := true,
                      breakType := some type } = timeline s ++ [t] := by
  simp [timeline, breaksTimeline_append, breaksTimeline, hopen]

theorem timeline_breakClosed (s : Shift) (init : List Break) (last : Break) (t : Time)
    (hopen : s.endTime = none) (hb : s.breaks = init ++ [last]) (hlast : last.endTime = none) :
    timeline { s with breaks := init ++ [{ last with endTime := some t }], onBreak := false,
                      breakType := none } = timeline s ++ [t] := by
  simp [timeline, breaksTimeline_append, breaksTimeline, hopen, hb, hlast]

theorem timeline_finishAt (s1 : Shift) (clock : Clock) (k : Nat) (hopen : s1.endTime = none)
    (endLoc : Option Location) :
    timeline { finishAt s1 clock k with endLocation := endLoc }
      = timeline s1 ++ [clock k] := by
  simp [timeline, finishAt, hopen]

/-- The case analysis of `step_cases` with the clock readings of the request made explicit. -/
theorem step_cases_timed (st : Store) (c : Call) :
    (step st c).2 = st ∨
    (∃ emp loc, (step st c).2 = st ++ [freshShift emp (clockOf c 0) loc]) ∨
    (∃ i s s', st[i]? = some s ∧ s.endTime = none ∧ Trans s s' ∧
      (step st c).2 = st.set i s' ∧
      ((∃ type loc, s' = { s with breaks := s.breaks ++ [⟨type, clockOf c 0, none, loc⟩],
                                  onBreak := true, breakType := some type }) ∨
       (s.onBreak = true ∧ closeCurrentBreak s (clockOf c 0) = .ok s') ∨
       (∃ s1 loc, endShiftUpdate s (clockOf c) = .ok s1 ∧
          s' = { s1 with endLocation := loc }))) := by
  cases c with
  | startShift emp location clock =>
    simp only [step, startShift, clockOf]
    cases hf : findOne (activeOf emp) st with
    | some r => exact Or.inl rfl
    | none =>
      cases hl : requiredLocation "location" location with
      | error e => exact Or.inl rfl
      | ok loc => exact Or.inr (Or.inl ⟨emp, loc, rfl⟩)
  | endShift emp location clock =>
    simp only [step, endShift, clockOf]
    cases hf : findOne (activeOf emp) st with
    | none => exact Or.inl rfl
    | some r =>
      obtain ⟨i, s⟩ := r
      obtain ⟨hi, hp⟩ := findOne_some hf
      dsimp only
      cases hu : endShiftUpdate s clock with
      | error e => exact Or.inl rfl
      | ok s' =>
        dsimp only
        cases hl : optionalLocation "endLocation" location with
        | error e => exact Or.inl rfl
        | ok loc =>
          exact Or.inr (Or.inr ⟨i, s, _, hi, (activeOf_iff.mp hp).2,
            Trans.shiftEnded s s' clock loc (activeOf_iff.mp hp).2 hu, rfl,
            Or.inr (Or.inr ⟨s', loc, hu, rfl⟩)⟩)
  | startBreak emp type location clock =>
    simp only [step, startBreak, clockOf]
    split
    · exact Or.inl rfl
    · cases hf : findOne (activeOf emp) st with
      | none => exact Or.inl rfl
      | some r =>
        obtain ⟨i, s⟩ := r
        obtain ⟨hi, hp⟩ := findOne_some hf
        dsimp only
        cases hon : s.onBreak with
        | true => exact Or.inl (by simp)
        | false =>
          cases hl : requiredLocation "breaks.location" location with
          | error e => exact Or.inl (by simp)
          | ok loc =>
            refine Or.inr (Or.inr ⟨i, s, _, hi, (activeOf_iff.mp hp).2,
              Trans.breakStarted s type (clock 0) loc (activeOf_iff.mp hp).2 hon, ?_,
              Or.inl ⟨type, loc, rfl⟩⟩)
            simp
  | endBreak emp clock =>
    simp only [step, endBreak, clockOf]
    cases hf : findOne (activeOnBreakOf emp) st with
    | none => exact Or.inl rfl
    | some r =>
      obtain ⟨i, s⟩ := r
      obtain ⟨hi, hp⟩ := findOne_some hf
      dsimp only
      cases hc : closeCurrentBreak s (clock 0) with
      | error e => exact Or.inl rfl
      | ok s' =>
        exact Or.inr (Or.inr ⟨i, s, s', hi, (activeOnBreakOf_iff.mp hp).2.1,
          Trans.breakEnded s s' (clock 0) (activeOnBreakOf_iff.mp hp).2.1
            (activeOnBreakOf_iff.mp hp).2.2 hc, rfl,
          Or.inr (Or.inl ⟨(activeOnBreakOf_iff.mp hp).2.2, hc⟩)⟩)

theorem timeInv_mono {hw hw' : Time} {s : Shift} (h : TimeInv hw s) (hle : hw ≤ hw') :
    TimeInv hw' s :=
  ⟨h.1, fun hopen t ht => le_trans (h.2 hopen t ht) hle⟩

theorem timeInv_finish {hw : Time} {sc : Shift} {clock : Clock} {k : Nat}
    (hT : TimeInv hw sc) (hopen : sc.endTime = none) (h : hw ≤ clock k)
    (endLoc : Option Location) :
    (timeline { finishAt sc clock k with endLocation := endLoc }).Pairwise
      (fun a b => a ≤ b) :=
  (timeInv_snoc hT hopen h (timeline_finishAt sc clock k hopen endLoc)).1

theorem timeInv_shiftEnded {hw : Time} {s s1 : Shift} {clock : Clock}
    (hshape : BreakShape s) (hT : TimeInv hw s) (hopen : s.endTime = none)
    (h0 : hw ≤ clock 0) (h1 : clock 0 ≤ clock 1) (hu : endShiftUpdate s clock = .ok s1)
    (endLoc : Option Location) :
    (timeline { s1 with endLocation := endLoc }).Pairwise (fun a b => a ≤ b) := by
  cases hon : s.onBreak with
  | false =>
    rw [endShiftUpdate_offBreak s clock hon] at hu
    cases hu
    exact timeInv_finish hT hopen h0 endLoc
  | true =>
    obtain ⟨init, last, hb, _, hlast⟩ := hshape.1 hon
    rw [endShiftUpdate_onBreak s clock hon, closeCurrentBreak_concat s init last _ hb] at hu
    simp only [Except.ok.injEq] at hu
    subst hu
    have hmid := timeInv_snoc hT hopen h0
      (timeline_breakClosed s init last (clock 0) hopen hb hlast)
    have hT' : TimeInv (clock 0)
        { s with breaks := init ++ [{ last with endTime := some (clock 0) }],
                 onBreak := false, breakType := none } := ⟨hmid.1, fun _ => hmid.2⟩
    exact timeInv_finish hT' hopen h1 endLoc

theorem step_timed (st : Store) (c : Call) (hw : Time)
    (h : ∀ s ∈ st, BreakShape s ∧ Stored s ∧ TimeInv hw s)
    (h0 : hw ≤ clockOf c 0) (h1 : clockOf c 0 ≤ clockOf c 1) :
    ∀ s ∈ (step st c).2, BreakShape s ∧ Stored s ∧ TimeInv (clockOf c 0) s := by
  have hold : ∀ s ∈ st, BreakShape s ∧ Stored s ∧ TimeInv (clockOf c 0) s :=
    fun s hs => ⟨(h s hs).1, (h s hs).2.1, timeInv_mono (h s hs).2.2 h0⟩
  rcases step_cases_timed st c with heq | ⟨emp, loc, heq⟩ |
    ⟨i, s0, s1, hi, hopen, htr, heq, hform⟩
  · rw [heq]; exact hold
  · rw [heq]
    intro s hs
    rcases List.mem_append.mp hs with hs | hs
    · exact hold s hs
    · rw [List.mem_singleton] at hs
      subst hs
      refine ⟨(fresh_shape emp _ loc).1, fresh_stored emp _ loc, ?_, ?_⟩
      · simp [timeline, freshShift, breaksTimeline]
      · intro _ t ht
        simp [timeline, freshShift, breaksTimeline] at ht
        rw [ht]
  · rw [heq]
    intro s hs
    rcases List.mem_or_eq_of_mem_set hs with hs | hs
    · exact hold s hs
    · subst hs
      obtain ⟨hshape, _, hT⟩ := h s0 (List.getElem?_mem hi)
      refine ⟨(trans_shape hshape htr).1, trans_stored hshape htr, ?_⟩
      rcases hform with ⟨type, loc, rfl⟩ | ⟨hon, hc⟩ | ⟨s2, loc, hu, rfl⟩
      · have := timeInv_snoc hT hopen h0 (timeline_breakStarted s0 type _ loc hopen)
        exact ⟨this.1, fun _ => this.2⟩
      · obtain ⟨init, last, hb, _, hlast⟩ := hshape.1 hon
        rw [closeCurrentBreak_concat s0 init last _ hb] at hc
        cases hc
        have := timeInv_snoc hT hopen h0
          (timeline_breakClosed s0 init last _ hopen hb hlast)
        exact ⟨this.1, fun _ => this.2⟩
      · refine ⟨timeInv_shiftEnded hshape hT hopen h0 h1 hu loc, ?_⟩
        intro hnone
        obtain ⟨s3, k, rfl, _⟩ := endShiftUpdate_ok hshape hu
        simp [finishAt] at hnone

theorem run_timed (st : Store) (calls : List Call) (hw : Time)
    (h : ∀ s ∈ st, BreakShape s ∧ Stored s ∧ TimeInv hw s)
    (hmono : NonDecreasingFrom hw calls) :
    ∀ s ∈ run st calls, BreakShape s ∧ Stored s ∧ (timeline s).Pairwise (fun a b => a ≤ b) := by
  induction calls generalizing st hw with
  | nil => exact fun s hs => ⟨(h s hs).1, (h s hs).2.1, (h s hs).2.2.1⟩
  | cons c rest ih =>
    obtain ⟨h0, h1, hrest⟩ := hmono
    exact ih _ _ (step_timed st c hw h h0 h1) hrest

theorem ordered_breaks (bs : List Break) (lo e : Time)
    (hp : (lo :: (breaksTimeline bs ++ [e])).Pairwise (fun a b => a ≤ b))
    (hall : AllClosed bs) :
    (∀ b ∈ bs, ∃ be, b.endTime = some be ∧ lo ≤ b.startTime ∧ b.startTime ≤ be ∧ be ≤ e) ∧
    bs.Pairwise (fun b1 b2 => ∃ e1, b1.endTime = some e1 ∧ e1 ≤ b2.startTime) ∧
    0 ≤ (closedBreakDurations bs).sum ∧ (closedBreakDurations bs).sum ≤ e - lo := by
  induction bs generalizing lo with
  | nil =>
    have hle : lo ≤ e := by
      have := (List.pairwise_cons.mp hp).1 e (by simp [breaksTimeline])
      exact this
    refine ⟨fun b hb => (by cases hb), List.Pairwise.nil, ?_, ?_⟩
    · simp [closedBreakDurations]
    · simp only [closedBreakDurations, List.filterMap_nil, List.sum_nil]
      linarith
  | cons b rest ih =>
    obtain ⟨be, hbe⟩ := Option.ne_none_iff_exists'.mp (hall b (List.mem_cons_self _ _))
    have hrest : AllClosed rest := fun x hx => hall x (List.mem_cons_of_mem _ hx)
    have hlist : lo :: (breaksTimeline (b :: rest) ++ [e])
        = lo :: b.startTime :: be :: (breaksTimeline rest ++ [e]) := by
      simp [breaksTimeline, hbe]
    rw [hlist] at hp
    obtain ⟨hlo, hp1⟩ := List.pairwise_cons.mp hp
    obtain ⟨hbs, hp2⟩ := List.pairwise_cons.mp hp1
    obtain ⟨ihmem, ihpair, ih0, ihsum⟩ := ih be hp2 hrest
    have h_lo_bs : lo ≤ b.startTime := hlo _ (by simp)
    have h_bs_be : b.startTime ≤ be := hbs _ (by simp)
    have h_be_e : be ≤ e := (List.pairwise_cons.mp hp2).1 e (by simp)
    refine ⟨?_, ?_, ?_, ?_⟩
    · intro x hx
      rcases List.mem_cons.mp hx with rfl | hx
      · exact ⟨be, hbe, h_lo_bs, h_bs_be, h_be_e⟩
      · obtain ⟨xe, hxe, h1, h2, h3⟩ := ihmem x hx
        exact ⟨xe, hxe, by linarith, h2, h3⟩
    · refine List.pairwise_cons.mpr ⟨?_, ihpair⟩
      intro x hx
      obtain ⟨xe, hxe, h1, _, _⟩ := ihmem x hx
      exact ⟨be, hbe, h1⟩
    · have : (closedBreakDurations (b :: rest)).sum
          = (be - b.startTime) + (closedBreakDurations rest).sum := by
        simp [closedBreakDurations, List.filterMap_cons, hbe]
      rw [this]
      linarith
    · have : (closedBreakDurations (b :: rest)).sum
          = (be - b.startTime) + (closedBreakDurations rest).sum := by
        simp [closedBreakDurations, List.filterMap_cons, hbe]
      rw [this]
      linarith

/-- C13. If the clock never goes back, then every shift closed by `endShift` after any
sequence of lifecycle requests served from the empty collection has only closed breaks with
`startTime ≤ break.startTime ≤ break.endTime ≤ endTime`, each break ending no later than the
next one starts, and so `0 ≤ totalBreakTime ≤ endTime - startTime` and
`totalWorkingTime ≥ 0`. -/
theorem monotone_clock_orders_breaks (calls : List Call) (lo : Time)
    (hmono : NonDecreasingFrom lo calls) (s : Shift) (hs : s ∈ run [] calls) (e : Time)
    (he : s.endTime = some e) :
    (∀ b ∈ s.breaks, ∃ be, b.endTime = some be ∧ s.startTime ≤ b.startTime ∧
      b.startTime ≤ be ∧ be ≤ e) ∧
    s.breaks.Pairwise (fun b1 b2 => ∃ e1, b1.endTime = some e1 ∧ e1 ≤ b2.startTime) ∧
    ∃ w bt, s.totalWorkingTime = some w ∧ s.totalBreakTime = some bt ∧
      0 ≤ bt ∧ bt ≤ e - s.startTime ∧ 0 ≤ w := by
  obtain ⟨_, hstored, hpair⟩ :=
    run_timed [] calls lo (fun s hs => by cases hs) hmono s hs
  obtain ⟨hall, hw, hbt⟩ := hstored e he
  have hp : (s.startTime :: (breaksTimeline s.breaks ++ [e])).Pairwise (fun a b => a ≤ b) := by
    have := hpair
    simp only [timeline, he, Option.toList_some] at this
    exact this
  obtain ⟨hmem, hord, h0, hsum⟩ := ordered_breaks s.breaks s.startTime e hp hall
  refine ⟨hmem, hord, _, _, hw, hbt, h0, hsum, ?_⟩
  linarith

/-- Witness for C13: the day of `sampleFullDay`, whose clock readings never go back. -/
theorem monotone_clock_orders_breaks_witness :
    NonDecreasingFrom 0 sampleFullDay ∧ sampleFullDayShift ∈ run [] sampleFullDay ∧
    (∀ b ∈ sampleFullDayShift.breaks, ∃ be, b.endTime = some be ∧
      sampleFullDayShift.startTime ≤ b.startTime ∧ b.startTime ≤ be ∧ be ≤ 5001) ∧
    sampleFullDayShift.breaks.Pairwise
      (fun b1 b2 => ∃ e1, b1.endTime = some e1 ∧ e1 ≤ b2.startTime) ∧
    ∃ w bt, sampleFullDayShift.totalWorkingTime = some w ∧
      sampleFullDayShift.totalBreakTime = some bt ∧
      0 ≤ bt ∧ bt ≤ 5001 - sampleFullDayShift.startTime ∧ 0 ≤ w :=
  have hmono : NonDecreasingFrom 0 sampleFullDay :=
    ⟨by decide, by decide, by decide, by decide, by decide, by decide, by decide, by decide,
     by decide, by decide, trivial⟩
  ⟨hmono, by decide,
   monotone_clock_orders_breaks sampleFullDay 0 hmono sampleFullDayShift (by decide) 5001 rfl⟩

theorem step_error_keeps_store (st : Store) (c : Call)
    (h200 : (step st c).1.status ≠ 200) (h201 : (step st c).1.status ≠ 201) :
    (step st c).2 = st := by
  cases c with
  | startShift emp location clock =>
    simp only [step, startShift] at h201 ⊢
    cases hf : findOne (activeOf emp) st with
    | some r => rfl
    | none =>
      cases hl : requiredLocation "location" location with
      | error e => rfl
      | ok loc => simp [hf, hl] at h201
  | endShift emp location clock =>
    simp only [step, endShift] at h200 ⊢
    cases hf : findOne (activeOf emp) st with
    | none => rfl
    | some r =>
      obtain ⟨i, s⟩ := r
      simp only [hf] at h200 ⊢
      cases hu : endShiftUpdate s clock with
      | error e => rfl
      | ok s' =>
        simp only [hu] at h200 ⊢
        cases hl : optionalLocation "endLocation" location with
        | error e => rfl
        | ok loc => simp [hl] at h200
  | startBreak emp type location clock =>
    simp only [step, startBreak] at h200 ⊢
    split
    · rfl
    · rename_i ht
      simp only [ht] at h200
      cases hf : findOne (activeOf emp) st with
      | none => rfl
      | some r =>
        obtain ⟨i, s⟩ := r
        simp only [hf] at h200 ⊢
        cases hon : s.onBreak with
        | true => simp
        | false =>
          cases hl : requiredLocation "breaks.location" location with
          | error e => simp
          | ok loc => simp [hon, hl] at h200
  | endBreak emp clock =>
    simp only [step, endBreak] at h200 ⊢
    cases hf : findOne (activeOnBreakOf emp) st with
    | none => rfl
    | some r =>
      obtain ⟨i, s⟩ := r
      simp only [hf] at h200 ⊢
      cases hc : closeCurrentBreak s (clock 0) with
      | error e => rfl
      | ok s' => simp [hc] at h200

/-- Apart from a rejected user lookup, an error response means that nothing was stored: when
a request is answered with a status other than 200 and 201 and the user lookup of the call
does not reject, the collection is the one before the call (whether the request was refused
by a check, failed schema validation, threw, or had its query or its write rejected). -/
theorem error_response_keeps_store (f : Faults) (st : Store) (c : Call)
    (hlookup : f.userLookup = false)
    (h200 : (stepF f st c).1.status ≠ 200) (h201 : (stepF f st c).1.status ≠ 201) :
    (stepF f st c).2 = st := by
  cases c with
  | startShift emp location clock =>
    have hb := step_error_keeps_store st (.startShift emp location clock)
    simp only [step] at hb
    simp only [stepF, startShiftF, hlookup] at h200 h201 ⊢
    by_cases hfind : f.find = true
    · simp [hfind]
    · simp only [hfind, if_false] at h200 h201 ⊢
      by_cases hs : (startShift st emp location clock).1.status = 201
      · simp only [hs, if_true] at h200 h201 ⊢
        by_cases hsave : f.save = true
        · simp [hsave]
        · simp [hsave, hs] at h201
      · simp only [hs, if_false] at h200 h201 ⊢
        exact hb h200 h201
  | endShift emp location clock =>
    have hb := step_error_keeps_store st (.endShift emp location clock)
    simp only [step] at hb
    simp only [stepF, endShiftF, hlookup] at h200 h201 ⊢
    by_cases hfind : f.find = true
    · simp [hfind]
    · simp only [hfind, if_false] at h200 h201 ⊢
      by_cases hs : (endShift st emp location clock).1.status = 200
      · simp only [hs, if_true] at h200 h201 ⊢
        by_cases hsave : f.save = true
        · simp [hsave]
        · simp [hsave, hs] at h200
      · simp only [hs, if_false] at h200 h201 ⊢
        exact hb h200 h201
  | startBreak emp type location clock =>
    have hb := step_error_keeps_store st (.startBreak emp type location clock)
    simp only [step] at hb
    simp only [stepF, startBreakF] at h200 h201 ⊢
    split at h200
    · rename_i ht
      simp only [ht, if_true] at h201 ⊢
      exact hb h200 h201
    · rename_i ht
      simp only [ht, if_false] at h201 ⊢
      by_cases hfind : f.find = true
      · simp [hfind]
      · simp only [hfind, if_false] at h200 h201 ⊢
        by_cases hs : (startBreak st emp type location clock).1.status = 200
        · simp only [hs, if_true] at h200 h201 ⊢
          by_cases hsave : f.save = true
          · simp [hsave]
          · simp [hsave, hs] at h200
        · simp only [hs, if_false] at h200 h201 ⊢
          exact hb h200 h201
  | endBreak emp clock =>
    have hb := step_error_keeps_store st (.endBreak emp clock)
    simp only [step] at hb
    simp only [stepF, endBreakF] at h200 h201 ⊢
    by_cases hfind : f.find = true
    · simp [hfind]
    · simp only [hfind, if_false] at h200 h201 ⊢
      by_cases hs : (endBreak st emp clock).1.status = 200
      · simp only [hs, if_true] at h200 h201 ⊢
        by_cases hsave : f.save = true
        · simp [hsave]
        · simp [hsave, hs] at h200
      · simp only [hs, if_false] at h200 h201 ⊢
        exact hb h200 h201

/-- C11 at the failing input: when only the user lookup made for the notification rejects,
`startShift` answers 500 `Server error` although the new shift has been created, and
`endShift` answers 500 `Server error` although the shift has been closed and saved. -/
theorem rejected_user_lookup_leaves_shift_stored :
    startShiftF lookupRejects [] 1 (some sampleLocation) (tickingFrom 1000)
      = (⟨500, .message "Server error"⟩, [sampleOnShiftShift]) ∧
    endShiftF lookupRejects (run [] sampleOnBreak) 1 none (tickingFrom 5000)
      = (⟨500, .message "Server error"⟩, [sampleEndedOnBreak]) ∧
    run [] sampleOnBreak ≠ [sampleEndedOnBreak] :=
  ⟨by decide, by decide, by decide⟩

end TimeTracker
